import Mathlib

/-!
Verification of the PowerDash IVQ Generator repository
(`app.py`, `utils/generation_iqt.py`, `utils/export_iqt.py`).

The Python code is shallowly embedded below.  Pure string manipulation is
translated to Lean functions on `String`/`List Char`; the two document
exporters are modelled as functions producing the list of drawing
operations that the source emits on the reportlab canvas / python-docx
document (serialization to bytes by those external libraries is out of
scope, as is the network call to the LLM and JSON parsing, which the
source delegates to external libraries).  Floating-point page coordinates
are modelled as exact rationals; `reportlab`'s `stringWidth` text-measure
is an explicit function parameter `sw` (text, font, size).
-/

namespace IVQ

/-! ## Python string primitives used by the sources -/

/-- Python `str.strip()` whitespace class (ASCII part): space, tab, LF, CR,
vertical tab, form feed. -/

def pyWhitespace (c : Char) : Bool :=
  c = ' ' || c = '\t' || c = '\n' || c = '\r' || c = '\x0b' || c = '\x0c'

/-- Python `str.strip()` on the character list: drop whitespace from both ends. -/

def pyStripList (l : List Char) : List Char :=
  ((l.dropWhile pyWhitespace).reverse.dropWhile pyWhitespace).reverse

/-- Python `text.strip()`. -/

def pyStrip (s : String) : String :=
  ⟨pyStripList s.data⟩

/-- The character class of the regex `[\.;:!]` in
`generation_iqt.py:_ensure_question_mark`. -/

def trailingPunct (c : Char) : Bool :=
  c = '.' || c = ';' || c = ':' || c = '!'

/-- Python `re.sub(r"[\.;:!]+$", "", text)`: remove the maximal trailing run of
`.`, `;`, `:`, `!` (the argument is already stripped in the source, so `$`
only matches at the very end). -/

def subTrailingPunct (s : String) : String :=
  ⟨(s.data.reverse.dropWhile trailingPunct).reverse⟩

/-- The last character of a string, if any. -/

def lastChar? (s : String) : Option Char :=
  s.data.getLast?

/-- Python `text.endswith("?")`. -/

def endsWithQ (s : String) : Bool :=
  lastChar? s = some '?'

/-- Source generation_iqt.py lines 71-75, `_ensure_question_mark` (leading
underscore dropped for Lean): strip, and unless the text already ends with
`?`, remove the trailing punctuation run and append a question mark. -/

def ensure_question_mark (text : String) : String :=
  let text := pyStrip text
  if endsWithQ text then text else subTrailingPunct text ++ "?"

/-! ## Python `str.split()` (whitespace split, empties dropped) -/

/-- Python `text.split()` on a character list: maximal runs of non-whitespace
characters, in order; whitespace runs separate words and produce no empty
words. -/

def splitWords : List Char → List (List Char)
  | [] => []
  | [c] => if pyWhitespace c then [] else [[c]]
  | c :: d :: cs =>
    if pyWhitespace c then splitWords (d :: cs)
    else if pyWhitespace d then [c] :: splitWords (d :: cs)
    else
      match splitWords (d :: cs) with
      | [] => [[c]]
      | w :: ws => (c :: w) :: ws

/-- Python `text.split()`. -/

def pySplit (s : String) : List String :=
  (splitWords s.data).map String.mk

/-- A word produced by `split()`: nonempty, no whitespace characters. -/

def WordOk (w : String) : Prop :=
  w.data ≠ [] ∧ ∀ c ∈ w.data, pyWhitespace c = false

/-- Python `" ".join(words)` (how a wrapped line relates to its words). -/

def spaceJoin : List String → String
  | [] => ""
  | [w] => w
  | w :: ws => w ++ " " ++ spaceJoin ws

/-! ## Word wrap `_wrap_lines` (export_iqt.py lines 263-274) -/

/-- The loop of `_wrap_lines`, with the canvas's `stringWidth(t, font, size)`
already partially applied as `meas`.  Arguments: remaining `words`, the
accumulated `out` lines, the current `line`.  Mirrors the source: build
`t = (line + " " + w).strip()`; if its measured width exceeds `width`,
flush the (nonempty) current line and restart from `w`, else extend. -/

def wrapLoop (meas : String → ℤ) (width : ℤ) :
    List String → List String → String → List String
  | [], out, line => out ++ (if line = "" then [] else [line])
  | w :: ws, out, line =>
    let t := pyStrip (line ++ " " ++ w)
    if meas t > width then
      wrapLoop meas width ws (out ++ (if line = "" then [] else [line])) w
    else
      wrapLoop meas width ws out t

/-- Source `_wrap_lines(c, text, width, font, size)`: greedy word wrap of `text`
into lines of measured width at most `width`.  `sw text font size` stands
for reportlab's `canvas.stringWidth`. -/

def wrap_lines (sw : String → String → ℤ → ℤ) (text : String) (width : ℤ)
    (font : String) (size : ℤ) : List String :=
  wrapLoop (fun t => sw t font size) width (pySplit text) [] ""

/-- The same loop at the level of word groups: each output line is the
space-join of one group. -/

def wrapGroups (meas : String → ℤ) (width : ℤ) :
    List String → List String → List (List String)
  | [], cur => if cur = [] then [] else [cur]
  | w :: ws, cur =>
    if meas (spaceJoin (cur ++ [w])) > width then
      (if cur = [] then [] else [cur]) ++ wrapGroups meas width ws [w]
    else
      wrapGroups meas width ws (cur ++ [w])

/-- Within a group, every extension step fit: all prefixes of length at
least 2 measure within the width (`length 1` carries no constraint: an
over-wide single word still gets its own line, whole). -/

def PrefixFits (meas : String → ℤ) (width : ℤ) (g : List String) : Prop :=
  ∀ k, 2 ≤ k → k ≤ g.length → ¬ meas (spaceJoin (g.take k)) > width

/-- When one line ends and the next begins, the flush really was forced:
the ended line extended by the next line's first word measures over the
width. -/

def FlushRel (meas : String → ℤ) (width : ℤ) (g g' : List String) : Prop :=
  ∀ w ∈ g'.head?, meas (spaceJoin (g ++ [w])) > width

/-- A concrete, computable stand-in for `stringWidth`: number of
characters. -/

def swLen : String → String → ℤ → ℤ := fun t _ _ => (t.length : ℤ)

/-! ## Data model of the exported pack (export_iqt.py docstring, lines 193-197) -/

/-- A question as consumed by the exporters (`q.get("question")`,
`"intent"`, `"good"`, `"followups")`).  Python's missing/`None`/empty
values are all modelled by `""` / `[]` (falsy in the source's `if
q.get(...)` tests). -/

structure Question where
  question : String
  intent : String
  good : String
  followups : List String
deriving DecidableEq

/-- A section: `{name, notes, bullets?, questions[]}`. -/

structure PackSection where
  name : String
  notes : String
  bullets : List String
  questions : List Question
deriving DecidableEq

/-- The `pack["inputs"]` fields the exporters read. -/

structure Inputs where
  interview_type : String
  duration_mins : Nat
deriving DecidableEq

/-- The pack shape consumed by `pack_to_docx` / `pack_to_pdf`. -/

structure Pack where
  title : String
  inputs : Inputs
  housekeeping : List String
  sections : List PackSection
deriving DecidableEq

/-- The subtitle metadata line both exporters emit. -/

def metaLine (pack : Pack) : String :=
  "Interview type: " ++ pack.inputs.interview_type ++ " · Duration: " ++
    toString pack.inputs.duration_mins ++ " mins"

/-! ## PDF exporter (export_iqt.py lines 276-443)

The reportlab canvas is modelled as the list of operations drawn on it,
each tagged with its page index; `c.showPage()` increments the page.
Coordinates are exact integers in units of 1/127 point (`PT = 127`), so
that reportlab's `mm = 72/25.4` points is the exact integer `360`
(reportlab itself computes in floating point; none of the layout
comparisons here are anywhere near a tie, so the exact model and the
float computation branch identically). -/

/-- One point, in coordinate units. -/

def PT : ℤ := 127

/-- reportlab `mm` (72/25.4 points = 360 units). -/

def mm : ℤ := 360

/-- A4 width. -/

def pageW : ℤ := 210 * mm

/-- A4 height. -/

def pageH : ℤ := 297 * mm

/-- Layout constants of `pack_to_pdf` (export_iqt.py lines 291-301). -/

def MARGIN_X : ℤ := 22 * mm

def TOP_Y : ℤ := pageH - 22 * mm

def LINE : ℤ := 16 * PT

def PAD_TOP : ℤ := 12 * PT

def PAD_BOTTOM : ℤ := 8 * PT

def NOTES_LINES : ℤ := 8

def SECTION_GAP : ℤ := 10 * PT

def BLOCK_GAP : ℤ := 14 * PT

def BOTTOM_BUF : ℤ := 65 * mm

def TOP_START_GAP : ℤ := 12 * mm

/-- One drawing operation on the canvas.  `footerMark` abstracts the
footer emitted by `footer()` (logo-image-plus-text or centred text;
the source's try/except guarantees one of the two in every call). -/

inductive PdfOp where
  | text (page : Nat) (x y : ℤ) (s : String)
  | rect (page : Nat) (x y w h : ℤ)
  | image (page : Nat) (x y w h : ℤ)
  | footerMark (page : Nat)
deriving DecidableEq

def PdfOp.pageOf : PdfOp → Nat
  | .text p _ _ _ => p
  | .rect p _ _ _ _ => p
  | .image p _ _ _ _ => p
  | .footerMark p => p

def PdfOp.isImage : PdfOp → Bool
  | .image _ _ _ _ _ => true
  | _ => false

def PdfOp.isFooter : PdfOp → Bool
  | .footerMark _ => true
  | _ => false

/-- Canvas state: current page, the mutable `cur_y` cursor, accumulated
operations. -/

structure PdfState where
  page : Nat
  curY : ℤ
  ops : List PdfOp
deriving DecidableEq

/-- Source `footer()` (lines 308-324): emit the footer mark on the current page. -/

def footer (st : PdfState) : PdfState :=
  { st with ops := st.ops ++ [PdfOp.footerMark st.page] }

/-- Source `ensure_space(px_needed)` (lines 329-334): if drawing would cross the
bottom buffer, emit the footer, start a new page and reset the cursor. -/

def ensure_space (pxNeeded : ℤ) (st : PdfState) : PdfState :=
  if st.curY - pxNeeded < BOTTOM_BUF then
    { page := st.page + 1, curY := TOP_Y - TOP_START_GAP,
      ops := st.ops ++ [PdfOp.footerMark st.page] }
  else st

/-- Canvas `c.drawString(x, y, s)` at an absolute position. -/

def drawTextAt (x y : ℤ) (s : String) (st : PdfState) : PdfState :=
  { st with ops := st.ops ++ [PdfOp.text st.page x y s] }

/-- Draw each line at the cursor and advance it (`c.drawString(x, cur_y,
ln); cur_y -= LINE`). -/

def drawWrappedLines (lines : List String) (st : PdfState) : PdfState :=
  lines.foldl (fun s ln =>
    { page := s.page, curY := s.curY - LINE,
      ops := s.ops ++ [PdfOp.text s.page MARGIN_X s.curY ln] }) st

/-- Source `draw_bullets(title, items)` (lines 353-364).  Note: **no**
`ensure_space` call here in the source. -/

def draw_bullets (sw : String → String → ℤ → ℤ) (title : String)
    (items : List String) (st : PdfState) : PdfState :=
  if items = [] then st
  else
    let st1 : PdfState := { st with curY := st.curY - SECTION_GAP }
    let st2 : PdfState :=
      { drawTextAt MARGIN_X st1.curY title st1 with curY := st1.curY - LINE }
    let st3 := items.foldl (fun s item =>
      drawWrappedLines
        (wrap_lines sw ("• " ++ item) (pageW - 2 * MARGIN_X) "Helvetica" 11) s) st2
    { st3 with curY := st3.curY - 4 * PT }

/-- Source `text_width` inside `question_block` (line 370). -/

def qTextWidth : ℤ := (pageW - MARGIN_X) - MARGIN_X - (PAD_TOP + PAD_BOTTOM)

/-- The four pre-measured wraps of `question_block` (lines 372-376). -/

def q_lines (sw : String → String → ℤ → ℤ) (q : Question) : List String :=
  wrap_lines sw (pyStrip q.question) qTextWidth "Helvetica-Bold" 12

def intent_lines (sw : String → String → ℤ → ℤ) (q : Question) : List String :=
  wrap_lines sw q.intent (qTextWidth - 90 * PT) "Helvetica" 11

def good_lines (sw : String → String → ℤ → ℤ) (q : Question) : List String :=
  wrap_lines sw q.good (qTextWidth - 150 * PT) "Helvetica" 11

/-- Source `", ".join((q.get("followups") or [])[:6]) if q.get("followups") else ""`. -/

def fup_text (q : Question) : String :=
  if q.followups = [] then "" else String.intercalate ", " (q.followups.take 6)

def fup_lines (sw : String → String → ℤ → ℤ) (q : Question) : List String :=
  wrap_lines sw (fup_text q) (qTextWidth - 110 * PT) "Helvetica" 11

/-- Source `rows_h` (lines 378-381). -/

def rows_h (sw : String → String → ℤ → ℤ) (q : Question) : ℤ :=
  ((q_lines sw q).length : ℤ) * LINE + 4 * PT +
  (if intent_lines sw q ≠ [] then LINE * (((intent_lines sw q).length : ℤ) + 1) else 0) +
  (if good_lines sw q ≠ [] then LINE * (((good_lines sw q).length : ℤ) + 1) else 0) +
  (if fup_lines sw q ≠ [] then LINE * (((fup_lines sw q).length : ℤ) + 1) else 0)

def notes_h : ℤ := NOTES_LINES * LINE

/-- Source `block_h` (line 383): the pre-measured height of a question block. -/

def block_h (sw : String → String → ℤ → ℤ) (q : Question) : ℤ :=
  PAD_TOP + rows_h sw q + notes_h + PAD_BOTTOM

/-- Draw `lines` downward from `ty` at fixed `x`, all on `page`; returns
the emitted operations and the final `ty`. -/

def drawLinesAt (page : Nat) (x : ℤ) : List String → ℤ → List PdfOp × ℤ
  | [], ty => ([], ty)
  | ln :: ls, ty =>
    let r := drawLinesAt page x ls (ty - LINE)
    (PdfOp.text page x ty ln :: r.1, r.2)

/-- One label/value row of `question_block` (lines 398-407). -/

def rowOps (sw : String → String → ℤ → ℤ) (page : Nat) (left : ℤ)
    (lbl : String) (lines : List String) (labelMin : ℤ) (ty : ℤ) :
    List PdfOp × ℤ :=
  if lines = [] then ([], ty)
  else
    let lblW := max labelMin (sw (lbl ++ ":") "Helvetica-Bold" 11)
    let r := drawLinesAt page (left + PAD_TOP + lblW) lines ty
    (PdfOp.text page (left + PAD_TOP) ty (lbl ++ ":") :: r.1, r.2 - 2 * PT)

/-- The question lines of `question_block`, drawn from `ty = cur_y -
PAD_TOP` (lines 391-395; `st1` is the state after `ensure_space`). -/

def qbRq (sw : String → String → ℤ → ℤ) (q : Question) (st1 : PdfState) :
    List PdfOp × ℤ :=
  drawLinesAt st1.page (MARGIN_X + PAD_TOP) (q_lines sw q) (st1.curY - PAD_TOP)

/-- Source `row("Intent", intent_lines, 60)` (line 409). -/

def qbRi (sw : String → String → ℤ → ℤ) (q : Question) (st1 : PdfState) :
    List PdfOp × ℤ :=
  rowOps sw st1.page MARGIN_X "Intent" (intent_lines sw q) (60 * PT) ((qbRq sw q st1).2 - 2 * PT)

/-- Source `row("What good looks like", good_lines, 150)` (line 410). -/

def qbRg (sw : String → String → ℤ → ℤ) (q : Question) (st1 : PdfState) :
    List PdfOp × ℤ :=
  rowOps sw st1.page MARGIN_X "What good looks like" (good_lines sw q) (150 * PT)
    (qbRi sw q st1).2

/-- Source `row("Follow-ups", fup_lines, 110)` (line 411). -/

def qbRf (sw : String → String → ℤ → ℤ) (q : Question) (st1 : PdfState) :
    List PdfOp × ℤ :=
  rowOps sw st1.page MARGIN_X "Follow-ups" (fup_lines sw q) (110 * PT) (qbRg sw q st1).2

/-- The operations `question_block` draws once space is ensured (lines
387-411): the bordered box sized to the pre-measured `block_h`, the
wrapped question lines, then the label/value rows; the blank notes space
emits nothing. -/

def qbOps (sw : String → String → ℤ → ℤ) (q : Question) (st1 : PdfState) :
    List PdfOp :=
  PdfOp.rect st1.page MARGIN_X (st1.curY - block_h sw q)
      ((pageW - MARGIN_X) - MARGIN_X) (block_h sw q) ::
    ((qbRq sw q st1).1 ++ (qbRi sw q st1).1 ++ (qbRg sw q st1).1 ++ (qbRf sw q st1).1)

/-- Source `question_block(q)` (lines 367-414): pre-measure, `ensure_space`, draw
the bordered box and its rows, leave blank notes space, advance the
cursor below the box (`cur_y = bottom_y - BLOCK_GAP`). -/

def question_block (sw : String → String → ℤ → ℤ) (q : Question)
    (st : PdfState) : PdfState :=
  let st1 := ensure_space (block_h sw q + BLOCK_GAP) st
  { page := st1.page,
    curY := st1.curY - block_h sw q - BLOCK_GAP,
    ops := st1.ops ++ qbOps sw q st1 }

/-- Section title (lines 421-422): gap, title at the cursor, advance.
Note: **no** `ensure_space` in the source. -/

def sectionTitlePart (sec : PackSection) (st : PdfState) : PdfState :=
  let st1 : PdfState := { st with curY := st.curY - SECTION_GAP }
  { drawTextAt MARGIN_X st1.curY sec.name st1 with curY := st1.curY - LINE }

/-- Optional section bullets (lines 424-429).  No `ensure_space`. -/

def sectionBulletsPart (sw : String → String → ℤ → ℤ) (sec : PackSection)
    (st : PdfState) : PdfState :=
  if sec.bullets = [] then st
  else
    let s := sec.bullets.foldl (fun s item =>
      drawWrappedLines
        (wrap_lines sw ("• " ++ item) (pageW - 2 * MARGIN_X) "Helvetica" 11) s) st
    { s with curY := s.curY - 4 * PT }

/-- Optional section notes (lines 431-435).  No `ensure_space`. -/

def sectionNotesPart (sw : String → String → ℤ → ℤ) (sec : PackSection)
    (st : PdfState) : PdfState :=
  if sec.notes = "" then st
  else
    let s := drawWrappedLines
      (wrap_lines sw sec.notes (pageW - 2 * MARGIN_X) "Helvetica" 11) st
    { s with curY := s.curY - 4 * PT }

/-- The non-question part of a section in the main loop (lines 417-435):
title, optional bullets, optional notes. -/

def sectionHeaderPart (sw : String → String → ℤ → ℤ) (sec : PackSection)
    (st : PdfState) : PdfState :=
  sectionNotesPart sw sec (sectionBulletsPart sw sec (sectionTitlePart sec st))

/-- The per-section body of the main loop (lines 417-438): title, optional
bullets, optional notes, then the question blocks. -/

def drawSection (sw : String → String → ℤ → ℤ) (sec : PackSection)
    (st : PdfState) : PdfState :=
  sec.questions.foldl (fun s q => question_block sw q s) (sectionHeaderPart sw sec st)

/-- The header region of `pack_to_pdf` (lines 336-350): optional remote
logo (fetch outcome `logoFetch`; the source swallows any exception from
it), title, subtitle metadata line, optional tenant name, then the cursor
is set to its starting position. -/

def pdfHeader (pack : Pack) (tenant_name logo_url : String)
    (logoFetch : Except String Unit) : PdfState :=
  let st0 : PdfState := { page := 0, curY := TOP_Y, ops := [] }
  let st1 := if logo_url ≠ "" then
      match logoFetch with
      | .ok _ => { st0 with ops := st0.ops ++
          [PdfOp.image st0.page MARGIN_X (TOP_Y - 15 * mm) (30 * mm) (15 * mm)] }
      | .error _ => st0
    else st0
  let st2 := drawTextAt MARGIN_X (TOP_Y - 18 * mm) pack.title st1
  let st3 := drawTextAt MARGIN_X (TOP_Y - 24 * mm) (metaLine pack) st2
  let st4 := if tenant_name ≠ "" then
      drawTextAt MARGIN_X (TOP_Y - 30 * mm) tenant_name st3
    else st3
  { st4 with curY := TOP_Y - 40 * mm }

/-- Source `pack_to_pdf` (lines 276-443), returning the final canvas state:
header, housekeeping bullets, sections with their question blocks, one
final footer. -/

def pack_to_pdf_state (sw : String → String → ℤ → ℤ) (pack : Pack)
    (tenant_name logo_url : String) (logoFetch : Except String Unit) : PdfState :=
  let st6 := draw_bullets sw "Housekeeping" pack.housekeeping
    (pdfHeader pack tenant_name logo_url logoFetch)
  let st7 := pack.sections.foldl (fun s sec => drawSection sw sec s) st6
  footer st7

/-- The operation list of the rendered PDF (its byte serialization by
reportlab is out of scope). -/

def pack_to_pdf (sw : String → String → ℤ → ℤ) (pack : Pack)
    (tenant_name logo_url : String) (logoFetch : Except String Unit) : List PdfOp :=
  (pack_to_pdf_state sw pack tenant_name logo_url logoFetch).ops

/-! ### Canvas framework: append-only emission, page and footer invariants -/

/-- State `st'` extends `st` by appending operations. -/

def opsLe (st st' : PdfState) : Prop := ∃ t, st'.ops = st.ops ++ t

/-- All drawing steps between two page breaks stay on the current page and
emit neither footer marks nor images. -/

def SamePageEmit (f : PdfState → PdfState) : Prop :=
  ∀ st, (f st).page = st.page ∧ ∃ t, (f st).ops = st.ops ++ t ∧
    ∀ op ∈ t, op.pageOf = st.page ∧ op.isFooter = false ∧ op.isImage = false

/-- Every page before the current one already carries a footer mark. -/

def FooterInv (st : PdfState) : Prop :=
  ∀ p, p < st.page → PdfOp.footerMark p ∈ st.ops

/-- No image operation has been emitted. -/

def NoImage (st : PdfState) : Prop := ∀ op ∈ st.ops, op.isImage = false

/-- A drawing step that preserves the footer and no-image invariants and
only appends operations. -/

def PdfStep (f : PdfState → PdfState) : Prop :=
  ∀ st, (FooterInv st → FooterInv (f st)) ∧ (NoImage st → NoImage (f st)) ∧
    opsLe st (f st)

/-- A sample question with empty optional fields. -/

def qEx : Question := { question := "Q", intent := "", good := "", followups := [] }

/-- A cursor close to the bottom buffer. -/

def stLow : PdfState := { page := 0, curY := 200 * PT, ops := [] }

/-- A cursor with plenty of room. -/

def stHigh : PdfState := { page := 0, curY := 600 * PT, ops := [] }

/-- A measure that makes every text fit on one line. -/

def swZero : String → String → ℤ → ℤ := fun _ _ _ => 0

/-- A pack whose housekeeping bullet list alone overflows the first page. -/

def hkPack : Pack :=
  { title := "T",
    inputs := { interview_type := "Competency", duration_mins := 60 },
    housekeeping := List.replicate 35 "b",
    sections := [] }

/-- A text operation drawn on the first page below the bottom buffer. -/

def belowBufferText : PdfOp → Bool := fun op =>
  match op with
  | PdfOp.text 0 _ y _ => decide (y < BOTTOM_BUF)
  | _ => false

/-! ## DOCX exporter (export_iqt.py lines 27-258)

The python-docx document is modelled as the ordered list of items added
to it. -/

/-- One item added to the DOCX document.  `footerMark` abstracts the
per-section footer of `_add_footer_powerdash` (logo-plus-text or plain
text; the try/except guarantees one of the two). -/

inductive DocxOp where
  | picture
  | para (text : String)
  | bullet (text : String)
  | qtable (question : String) (rows : List (String × String))
  | footerMark
deriving DecidableEq

/-- Python `", ".join(l)`. -/

def joinComma (l : List String) : String := String.intercalate ", " l

/-- Source `add_row(label, value)` inside `_add_question_table` (lines 155-164):
skipped entirely when the value is empty. -/

def addRowDocx (label value : String) : List (String × String) :=
  if value = "" then [] else [(label, value)]

/-- The label/value rows of `_add_question_table` (lines 166-171): note
the `[:6]` cap on followups. -/

def docx_q_rows (q : Question) : List (String × String) :=
  (if q.intent ≠ "" then addRowDocx "Intent" q.intent else []) ++
  (if q.good ≠ "" then addRowDocx "What good looks like" q.good else []) ++
  (if q.followups ≠ [] then
    addRowDocx "Follow-ups" (joinComma (q.followups.take 6))
  else [])

/-- Source `_add_question_table(doc, q)` (lines 121-185): the bordered table with
the question row, the label/value rows and the blank notes row. -/

def add_question_table (q : Question) : DocxOp :=
  DocxOp.qtable (pyStrip q.question) (docx_q_rows q)

/-- One section of `pack_to_docx` (lines 230-250): spacer, name, optional
bullets, optional notes, question tables. -/

def docxSection (sec : PackSection) : List DocxOp :=
  DocxOp.para "" :: DocxOp.para sec.name :: sec.bullets.map DocxOp.bullet ++
    (if sec.notes ≠ "" then [DocxOp.para sec.notes] else []) ++
    sec.questions.map add_question_table

/-- Source `pack_to_docx` (lines 187-258).  `logoFetch` is the outcome of the
external `requests.get(logo_url)` fetch and decode; the source swallows
any exception from it (lines 202-207). -/

def pack_to_docx (pack : Pack) (tenant_name logo_url : String)
    (logoFetch : Except String Unit) : List DocxOp :=
  (if logo_url ≠ "" then
    match logoFetch with
    | .ok _ => [DocxOp.picture]
    | .error _ => []
  else []) ++
  [DocxOp.para pack.title, DocxOp.para (metaLine pack)] ++
  (if tenant_name ≠ "" then [DocxOp.para tenant_name] else []) ++
  (if pack.housekeeping ≠ [] then
    DocxOp.para "" :: DocxOp.para "Housekeeping" :: pack.housekeeping.map DocxOp.bullet
  else []) ++
  (pack.sections.map docxSection).flatten ++
  [DocxOp.footerMark]

/-! ## Generation module (utils/generation_iqt.py) -/

/-- Constant `HOUSEKEEPING_BULLETS` (generation_iqt.py lines 39-45). -/

def HOUSEKEEPING_BULLETS : List String :=
  ["Ensure confidentiality of candidate responses.",
   "Maintain a professional and respectful tone throughout.",
   "Allocate approximately the scheduled duration for the interview.",
   "Use follow‑up questions to probe deeper into responses.",
   "Adhere to employment law and equality guidelines for the jurisdiction."]

/-- One item of the upstream JSON `questions` array, after the
`str(item.get(key, default))` coercions of the normalisation loop. -/

structure RawItem where
  question : String
  intent : String
  what_good_looks_like : String
  follow_ups : List String
deriving DecidableEq

/-- The parsed upstream JSON object (`raw.get("questions", [])`). -/

structure RawResponse where
  questions : List RawItem
deriving DecidableEq

/-- The arguments of `build_ivq_pack` (lines 94-96). -/

structure GenArgs where
  role_title : String
  interview_type : String
  duration : String
  brief : String
  jurisdiction : String
  model : String
  num_questions : Nat
  include_followups : Bool
  include_wgll : Bool
  include_housekeeping : Bool
deriving DecidableEq

/-- One normalized question (lines 112-121). -/

structure BuildQuestion where
  question : String
  intent : String
  what_good_looks_like : String
  follow_ups : List String
deriving DecidableEq

/-- The `meta` dict of the returned pack (lines 153-158). -/

structure BuildMeta where
  role_title : String
  interview_type : String
  duration : String
  housekeeping : Bool
deriving DecidableEq

/-- The dict returned by `build_ivq_pack` (line 153). -/

structure BuildPack where
  html : String
  questions : List BuildQuestion
  meta : BuildMeta
deriving DecidableEq

/-- The keys of the dict literal returned by `build_ivq_pack`
(generation_iqt.py line 153): note there is no `sections`, `html_preview`
or `slug` key. -/

def buildPackKeys : List String := ["html", "questions", "meta"]

/-- The normalisation of one upstream item (lines 112-121). -/

def normalizeItem (item : RawItem) : BuildQuestion :=
  { question := ensure_question_mark item.question,
    intent := pyStrip item.intent,
    what_good_looks_like := pyStrip item.what_good_looks_like,
    follow_ups := item.follow_ups.map (fun f => ensure_question_mark (pyStrip f)) }

/-- Source `USER_PROMPT_TMPL.format(...)` with the `or`-defaults (lines 98-105). -/

def user_prompt (args : GenArgs) : String :=
  "Role: " ++ (if args.role_title = "" then "Role" else args.role_title) ++ "\n" ++
  "Interview type: " ++ args.interview_type ++ "\n" ++
  "Duration: " ++ (if args.duration = "" then "60 mins" else args.duration) ++ "\n" ++
  "Jurisdiction: " ++ args.jurisdiction ++ "\n" ++
  "Brief / JD highlights:\n" ++ args.brief ++ "\n\n" ++
  "Create " ++ toString args.num_questions ++ " core questions."

/-- The CSS block `HTML_CSS` (lines 19-37); its concrete style rules are
irrelevant to every claim and abbreviated here. -/

def HTML_CSS : String := "<style>Source Sans Pro pack styles</style>"

/-- The HTML fragment of one question (lines 135-145). -/

def htmlQuestionDiv (args : GenArgs) (idx : Nat) (it : BuildQuestion) :
    List String :=
  ["<div class=\"q\">",
   "<h3>Question " ++ toString idx ++ ": " ++ it.question ++ "</h3>",
   "<div class='kv'><span class='k'>Intent:</span> " ++ it.intent ++ "</div>"] ++
  (if args.include_wgll = true ∧ it.what_good_looks_like ≠ "" then
    ["<div class='kv'><span class='k'>What good looks like:</span> " ++
      it.what_good_looks_like ++ "</div>"]
  else []) ++
  (if args.include_followups = true ∧ it.follow_ups ≠ [] then
    ["<div class='kv'><span class='k'>Follow‑ups:</span> " ++
      String.intercalate " " (it.follow_ups.map (fun fu => "• " ++ fu)) ++ "</div>"]
  else []) ++
  ["<div class=\"notes\"></div>", "</div>"]

/-- The HTML assembly of `build_ivq_pack` (lines 123-151). -/

def build_html (args : GenArgs) (questions : List BuildQuestion) : String :=
  let parts :=
    [HTML_CSS, "<div class=\"ivq\">",
     "<div class=\"hdr\"><h1>" ++ args.role_title ++ " — Competency Pack</h1></div>",
     "<div class=\"meta\">Interview type: " ++ args.interview_type ++
       " · Duration: " ++ args.duration ++ "</div>"] ++
    (if args.include_housekeeping then
      ["<div class=\"section house\"><h2>Housekeeping</h2><ul>"] ++
        HOUSEKEEPING_BULLETS.map (fun b => "<li>" ++ b ++ "</li>") ++ ["</ul></div>"]
    else []) ++
    ["<div class=\"section\"><h2>Core Questions</h2></div>"] ++
    (questions.enum.map (fun p => htmlQuestionDiv args (p.1 + 1) p.2)).flatten ++
    ["<div class=\"footer\">Generated by PowerDash HR – IVQ Generator</div>", "</div>"]
  String.intercalate "\n" parts

/-- Source `call_openai_json` (lines 78-91): the network call and
`json.loads(content)` are external; `response` is their combined outcome
— the parsed object, or the exception `json.loads` raises on unparsable
content.  The function has no try/except, so the outcome passes through
unchanged. -/

def call_openai_json (response : Except String RawResponse) :
    Except String RawResponse := response

/-- Source `build_ivq_pack` (lines 94-158): format the prompt, call the model,
normalise the `questions` array (slice to `num_questions`, coerce fields,
enforce the question mark), build the HTML, and return the
html/questions/meta dict.  A `json.loads` exception propagates to the
caller — there is no try/except on this path. -/

def build_ivq_pack (args : GenArgs) (response : Except String RawResponse) :
    Except String BuildPack :=
  match call_openai_json response with
  | .error e => .error e
  | .ok raw =>
    let questions := (raw.questions.take args.num_questions).map normalizeItem
    .ok { html := build_html args questions,
          questions := questions,
          meta := { role_title := args.role_title,
                    interview_type := args.interview_type,
                    duration := args.duration,
                    housekeeping := args.include_housekeeping } }

/-- Python `"." * 120` (the dotted notes lines of `_add_dotted_notes`). -/

def dottedLine : String := String.mk (List.replicate 120 '.')

/-- The paragraphs `render_docx` emits for one question (lines 517-541):
**all** follow-ups are emitted — there is no `[:6]` cap here. -/

def render_docx_q (idx : Nat) (it : BuildQuestion) : List DocxOp :=
  [DocxOp.para ("Question " ++ toString idx ++ ": " ++ it.question),
   DocxOp.para ("Intent: " ++ it.intent)] ++
  (if it.what_good_looks_like ≠ "" then
    [DocxOp.para ("What good looks like: " ++ it.what_good_looks_like)]
  else []) ++
  (if it.follow_ups ≠ [] then
    DocxOp.para "Follow‑ups:" :: it.follow_ups.map (fun fu => DocxOp.para ("• " ++ fu))
  else []) ++
  List.replicate 6 (DocxOp.para dottedLine) ++ [DocxOp.para ""]

/-- Source `render_docx` (generation_iqt.py lines 489-548): header logo, title,
meta line, optional housekeeping, `Core Questions`, one block per
question, optional footer logo.  `logoBytes`/`footerLogoBytes` model the
truthiness of the byte arguments. -/

def render_docx (pack : BuildPack) (role_title interview_type duration : String)
    (logoBytes footerLogoBytes : Bool) : List DocxOp :=
  (if logoBytes then [DocxOp.picture] else []) ++
  [DocxOp.para (role_title ++ " — Competency Pack"),
   DocxOp.para ("Interview type: " ++ interview_type ++ " · Duration: " ++ duration)] ++
  (if pack.meta.housekeeping then
    DocxOp.para "" :: DocxOp.para "Housekeeping" ::
      HOUSEKEEPING_BULLETS.map (fun b => DocxOp.para ("• " ++ b))
  else []) ++
  [DocxOp.para "", DocxOp.para "Core Questions"] ++
  (pack.questions.enum.map (fun p => render_docx_q (p.1 + 1) p.2)).flatten ++
  (if footerLogoBytes then [DocxOp.footerMark] else [])

/-- The module-level names defined by `utils/generation_iqt.py` (imports
and definitions; both halves of the file define the same names).  There
is no `generate_interview_pack`. -/

def generation_iqt_module_names : List String :=
  ["io", "re", "List", "Dict", "Any", "Document", "Pt", "Inches",
   "WD_ALIGN_PARAGRAPH", "qn", "OpenAI", "HTML_CSS", "HOUSEKEEPING_BULLETS",
   "SYSTEM_PROMPT", "USER_PROMPT_TMPL", "_ensure_question_mark",
   "call_openai_json", "build_ivq_pack", "_set_run_font", "_add_heading",
   "_add_spacer", "_add_dotted_notes", "_add_logo_header", "_add_footer_logo",
   "render_docx"]

/-- Python `from module import name`: succeeds exactly when the module
defines `name`, else raises `ImportError` (app.py line 8). -/

def pyFromImport (moduleNames : List String) (name : String) : Except String Unit :=
  if name ∈ moduleNames then Except.ok ()
  else Except.error ("ImportError: cannot import name " ++ name)

/-! ## The app's pack producer (missing from the sources)

`app.py` line 8 imports `generate_interview_pack` from
`utils.generation_iqt`, but that module does not define it; the
repository's implementation (the producer of the `title/inputs/
housekeeping/sections` packs the exporters consume) is not among the
provided sources.  The definitions below are therefore modelled from the
spec, and the claims that depend on them are settled against this
model. -/

/-- Modelled from the spec: the "small set of accepted spellings" for the
Close-down section (spec §4.2; the spec does not list them — this set is
representative, with the canonical spelling first). -/

def closeDownNames : List String :=
  ["Close-down & Next Steps", "Close Down & Next Steps",
   "Closedown & Next Steps", "Close-down and Next Steps", "Wrap-up & Next Steps"]

/-- Modelled from the spec: the "fixed five-bullet default list" for a
synthesized Close-down section (spec §4.2; the texts are representative,
their number is the spec's five). -/

def closeDownDefaultBullets : List String :=
  ["Thank the candidate and outline the next steps in the process.",
   "Confirm the expected timeline for a decision.",
   "Invite any remaining questions from the candidate.",
   "Explain how and when feedback will be shared.",
   "Record scores and notes immediately after the interview."]

/-- A section name matches an accepted Close-down spelling. -/

def isCloseDown (name : String) : Bool := closeDownNames.contains name

/-- The synthesized default Close-down section. -/

def closeDownSection : PackSection :=
  { name := "Close-down & Next Steps", notes := "",
    bullets := closeDownDefaultBullets, questions := [] }

/-- Modelled from the spec (§4.2): synthesize the default Close-down
section whenever no section's name matches an accepted spelling. -/

def ensureCloseDown (secs : List PackSection) : List PackSection :=
  if secs.any (fun s => isCloseDown s.name) then secs
  else secs ++ [closeDownSection]

/-- Modelled from the spec (§4.2 failure mode): the single unnamed
section holding the raw response text as one pseudo-bullet. -/

def fallbackSection (rawText : String) : PackSection :=
  { name := "", notes := "", bullets := [rawText], questions := [] }

/-- The parsed upstream response consumed by the normalizer
(`{housekeeping: [string], sections: [...]}`, spec §6). -/

structure UpstreamPack where
  housekeeping : List String
  sections : List PackSection
deriving DecidableEq

/-- The number of sections carrying an accepted Close-down name. -/

def countCloseDown (secs : List PackSection) : Nat :=
  secs.countP (fun s => isCloseDown s.name)

/-- Modelled from the spec: `generate_interview_pack` (imported by app.py
line 8 but defined in none of the provided sources).  Per spec §4.2 and
§2: a parsed response is normalized with the Close-down section
guaranteed; an unparsable response (`parsed = none`, `rawText` the raw
upstream text) degrades to a pack with the single unnamed raw-text
section, and no exception is raised (the function is total). -/

def generate_interview_pack (title : String) (inputs : Inputs)
    (parsed : Option UpstreamPack) (rawText : String) : Pack :=
  match parsed with
  | some up =>
    { title := title, inputs := inputs, housekeeping := up.housekeeping,
      sections := ensureCloseDown up.sections }
  | none =>
    { title := title, inputs := inputs, housekeeping := [],
      sections := [fallbackSection rawText] }

/-- A pack whose single question carries 7 follow-ups. -/

def fu7Question : BuildQuestion :=
  { question := "Q?", intent := "i", what_good_looks_like := "",
    follow_ups := ["f1", "f2", "f3", "f4", "f5", "f6", "f7"] }

def fu7Meta : BuildMeta :=
  { role_title := "r", interview_type := "t", duration := "60",
    housekeeping := false }

def fu7Pack : BuildPack :=
  { html := "", questions := [fu7Question], meta := fu7Meta }

/-- A follow-up bullet paragraph (the seven bullets `• f1`…`• f7`). -/

def fuBullet : DocxOp → Bool := fun op =>
  match op with
  | DocxOp.para s =>
    match s.data with
    | '•' :: ' ' :: 'f' :: _ => true
    | _ => false
  | _ => false

/-- An upstream item whose question text is empty. -/

def emptyQItem : RawItem :=
  { question := "", intent := "", what_good_looks_like := "", follow_ups := [] }

def emptyQRaw : RawResponse := { questions := [emptyQItem] }

def argsEx : GenArgs :=
  { role_title := "r", interview_type := "t", duration := "60", brief := "",
    jurisdiction := "UK", model := "m", num_questions := 1,
    include_followups := true, include_wgll := true, include_housekeeping := true }

def inputsEx : Inputs := { interview_type := "Competency", duration_mins := 60 }

/-- A plain section with no questions. -/

def coreSectionEx : PackSection :=
  { name := "Core Questions", notes := "", bullets := [], questions := [] }

/-- An upstream response with no Close-down section. -/

def upEx : UpstreamPack :=
  { housekeeping := ["h"], sections := [coreSectionEx] }

/-- A second accepted Close-down spelling. -/

def closeDownAltSection : PackSection :=
  { name := "Close Down & Next Steps", notes := "", bullets := [], questions := [] }

/-- An upstream response already carrying two accepted Close-down names. -/

def dupUp : UpstreamPack :=
  { housekeeping := [], sections := [closeDownSection, closeDownAltSection] }

/-! # Theorems -/

/-! ### Facts about the string primitives -/

theorem pyStripList_of_ends (l : List Char)
    (h1 : ∀ c, l.head? = some c → pyWhitespace c = false)
    (h2 : ∀ c, l.getLast? = some c → pyWhitespace c = false) :
    pyStripList l = l := by
  unfold pyStripList
  have hd : l.dropWhile pyWhitespace = l := by
    cases l with
    | nil => rfl
    | cons a as =>
      rw [List.dropWhile_cons]
      simp [h1 a rfl]
  rw [hd]
  have hlast : l.reverse.dropWhile pyWhitespace = l.reverse := by
    cases hrev : l.reverse with
    | nil => rfl
    | cons a as =>
      rw [List.dropWhile_cons]
      have : l.getLast? = some a := by
        rw [← List.head?_reverse, hrev]; rfl
      simp [h2 a this]
  rw [hlast, List.reverse_reverse]

theorem subTrailingPunct_of_last (s : String) (c : Char)
    (hc : lastChar? s = some c) (hp : trailingPunct c = false) :
    subTrailingPunct s = s := by
  unfold subTrailingPunct
  cases s with
  | mk l =>
    have : l.reverse.dropWhile trailingPunct = l.reverse := by
      cases hrev : l.reverse with
      | nil => rfl
      | cons a as =>
        rw [List.dropWhile_cons]
        have : l.getLast? = some a := by
          rw [← List.head?_reverse, hrev]; rfl
        have : a = c := by
          rw [lastChar?] at hc; simp only at hc
          rw [this] at hc; exact Option.some_injective _ hc
        simp [this, hp]
    rw [this, List.reverse_reverse]

theorem lastChar?_append_q (s : String) :
    lastChar? (s ++ "?") = some '?' := by
  cases s with
  | mk l =>
    show (l ++ ['?']).getLast? = some '?'
    simp

/-- The normalizer always produces text ending in a question mark. -/

theorem ensure_question_mark_endsQ (s : String) :
    endsWithQ (ensure_question_mark s) = true := by
  unfold ensure_question_mark
  by_cases h : endsWithQ (pyStrip s)
  · simp [h]
  · simp only [h, Bool.false_eq_true, if_false]
    unfold endsWithQ
    rw [lastChar?_append_q]
    rfl

/-- Text ending in a question mark is nonempty. -/

theorem ne_empty_of_endsQ (s : String) (h : endsWithQ s = true) : s ≠ "" := by
  intro he
  rw [he] at h
  simp [endsWithQ, lastChar?] at h

theorem data_append (a b : String) : (a ++ b).data = a.data ++ b.data := rfl

theorem stringMk_data (s : String) : String.mk s.data = s := rfl

theorem splitWords_wf :
    ∀ l, ∀ w ∈ splitWords l, w ≠ [] ∧ ∀ c ∈ w, pyWhitespace c = false := by
  intro l
  induction l using splitWords.induct with
  | case1 => intro w hw; simp [splitWords] at hw
  | case2 c hws =>
    intro w hw; simp [splitWords, hws] at hw
  | case3 c hws =>
    rw [Bool.not_eq_true] at hws
    intro w hw
    simp [splitWords, hws] at hw
    subst hw
    exact ⟨by simp, by intro x hx; simp at hx; subst hx; exact hws⟩
  | case4 c d cs hc ih =>
    intro w hw
    rw [splitWords] at hw
    simp only [hc, if_true] at hw
    exact ih w hw
  | case5 c d cs hc hd ih =>
    rw [Bool.not_eq_true] at hc
    intro w hw
    rw [splitWords] at hw
    simp only [hc, Bool.false_eq_true, if_false, hd, if_true, List.mem_cons] at hw
    rcases hw with hw | hw
    · subst hw
      exact ⟨by simp, by intro x hx; simp at hx; subst hx; exact hc⟩
    · exact ih w hw
  | case6 c d cs hc hd heq ih =>
    rw [Bool.not_eq_true] at hc hd
    intro w hw
    rw [splitWords] at hw
    simp only [hc, Bool.false_eq_true, if_false, hd, heq] at hw
    simp at hw
    subst hw
    exact ⟨by simp, by intro x hx; simp at hx; subst hx; exact hc⟩
  | case7 c d cs hc hd w' ws' heq ih =>
    rw [Bool.not_eq_true] at hc hd
    intro w hw
    rw [splitWords] at hw
    simp only [hc, Bool.false_eq_true, if_false, hd, heq, List.mem_cons] at hw
    rcases hw with hw | hw
    · subst hw
      have hw' := ih w' (by rw [heq]; exact List.mem_cons_self _ _)
      constructor
      · simp
      · intro x hx
        rcases List.mem_cons.1 hx with hx | hx
        · subst hx; exact hc
        · exact hw'.2 x hx
    · exact ih w (by rw [heq]; exact List.mem_cons_of_mem _ hw)

/-- Dropping a leading whitespace character does not change the words. -/

theorem splitWords_ws_cons (c : Char) (l : List Char) (hc : pyWhitespace c = true) :
    splitWords (c :: l) = splitWords l := by
  cases l with
  | nil => simp [splitWords, hc]
  | cons d cs => rw [splitWords]; simp [hc]

/-- A single well-formed word splits to itself. -/

theorem splitWords_word :
    ∀ (w : List Char), w ≠ [] → (∀ c ∈ w, pyWhitespace c = false) →
      splitWords w = [w] := by
  intro w
  induction w with
  | nil => intro h; exact absurd rfl h
  | cons c w ih =>
    intro _ hall
    cases w with
    | nil => simp [splitWords, hall c (by simp)]
    | cons d w' =>
      have hc : pyWhitespace c = false := hall c (by simp)
      have hd : pyWhitespace d = false := hall d (by simp)
      rw [splitWords]
      simp only [hc, Bool.false_eq_true, if_false, hd]
      rw [ih (by simp) (fun x hx => hall x (List.mem_cons_of_mem _ hx))]

/-- A well-formed word followed by a space prepends itself to the split of
the rest. -/

theorem splitWords_word_append :
    ∀ (w : List Char), w ≠ [] → (∀ c ∈ w, pyWhitespace c = false) →
      ∀ rest, splitWords (w ++ ' ' :: rest) = w :: splitWords rest := by
  intro w
  induction w with
  | nil => intro h; exact absurd rfl h
  | cons c w ih =>
    intro _ hall rest
    cases w with
    | nil =>
      have hc : pyWhitespace c = false := hall c (by simp)
      show splitWords (c :: ' ' :: rest) = [c] :: splitWords rest
      rw [splitWords]
      simp only [hc, Bool.false_eq_true, if_false]
      rw [if_pos (by decide)]
      rw [splitWords_ws_cons ' ' rest (by decide)]
    | cons d w' =>
      have hc : pyWhitespace c = false := hall c (by simp)
      have hd : pyWhitespace d = false := hall d (by simp)
      show splitWords (c :: ((d :: w') ++ ' ' :: rest)) = (c :: d :: w') :: splitWords rest
      have : (d :: w') ++ ' ' :: rest = d :: (w' ++ ' ' :: rest) := by simp
      rw [this, splitWords]
      simp only [hc, Bool.false_eq_true, if_false, hd]
      have hrec := ih (by simp) (fun x hx => hall x (List.mem_cons_of_mem _ hx)) rest
      rw [show (d :: w') ++ ' ' :: rest = d :: (w' ++ ' ' :: rest) from by simp] at hrec
      rw [hrec]

theorem spaceJoin_cons_cons (w x : String) (ws : List String) :
    spaceJoin (w :: x :: ws) = w ++ " " ++ spaceJoin (x :: ws) := rfl

theorem spaceJoin_append_singleton (ws : List String) (v : String) (h : ws ≠ []) :
    spaceJoin (ws ++ [v]) = spaceJoin ws ++ " " ++ v := by
  induction ws with
  | nil => exact absurd rfl h
  | cons w ws ih =>
    cases ws with
    | nil => rfl
    | cons x ws' =>
      show spaceJoin (w :: ((x :: ws') ++ [v])) = spaceJoin (w :: x :: ws') ++ " " ++ v
      rw [show (x :: ws') ++ [v] = x :: (ws' ++ [v]) from rfl]
      rw [spaceJoin_cons_cons, spaceJoin_cons_cons]
      rw [show x :: (ws' ++ [v]) = (x :: ws') ++ [v] from rfl]
      rw [ih (by simp)]
      simp [String.append_assoc]

theorem data_spaceJoin_cons_cons (w x : String) (ws : List String) :
    (spaceJoin (w :: x :: ws)).data = w.data ++ ' ' :: (spaceJoin (x :: ws)).data := by
  rw [spaceJoin_cons_cons, data_append, data_append]
  simp

/-- Splitting a space-join of well-formed words recovers the words. -/

theorem pySplit_spaceJoin :
    ∀ (g : List String), (∀ w ∈ g, WordOk w) → pySplit (spaceJoin g) = g := by
  intro g
  induction g with
  | nil => intro _; rfl
  | cons w ws ih =>
    intro hwf
    cases ws with
    | nil =>
      have hw := hwf w (by simp)
      show (splitWords w.data).map String.mk = [w]
      rw [splitWords_word w.data hw.1 hw.2]
      simp [stringMk_data]
    | cons x ws' =>
      have hw := hwf w (by simp)
      unfold pySplit
      rw [data_spaceJoin_cons_cons]
      rw [splitWords_word_append w.data hw.1 hw.2]
      have := ih (fun v hv => hwf v (List.mem_cons_of_mem _ hv))
      unfold pySplit at this
      simp only [List.map_cons, stringMk_data]
      rw [this]

/-- Every word of `pySplit` is well-formed. -/

theorem pySplit_wf (s : String) : ∀ w ∈ pySplit s, WordOk w := by
  intro w hw
  unfold pySplit at hw
  rcases List.mem_map.1 hw with ⟨wd, hwd, hmk⟩
  have := splitWords_wf s.data wd hwd
  subst hmk
  exact ⟨this.1, this.2⟩

/-- A string whose first and last characters are not whitespace is
unchanged by `strip()`. -/

theorem pyStrip_of_ends (s : String)
    (h1 : ∀ c, s.data.head? = some c → pyWhitespace c = false)
    (h2 : ∀ c, s.data.getLast? = some c → pyWhitespace c = false) :
    pyStrip s = s := by
  unfold pyStrip
  rw [pyStripList_of_ends s.data h1 h2, stringMk_data]

theorem WordOk.spaceJoin_ne_empty :
    ∀ (g : List String), g ≠ [] → (∀ w ∈ g, WordOk w) → (spaceJoin g).data ≠ [] := by
  intro g hne hwf
  cases g with
  | nil => exact absurd rfl hne
  | cons w ws =>
    cases ws with
    | nil => exact (hwf w (by simp)).1
    | cons x ws' =>
      rw [data_spaceJoin_cons_cons]
      have := (hwf w (by simp)).1
      intro h
      rw [List.append_eq_nil] at h
      exact absurd h.2 (by simp)

theorem spaceJoin_no_leading_ws :
    ∀ (g : List String), (∀ w ∈ g, WordOk w) →
      ∀ c, (spaceJoin g).data.head? = some c → pyWhitespace c = false := by
  intro g hwf c hc
  cases g with
  | nil => simp [spaceJoin] at hc
  | cons w ws =>
    have hw := hwf w (by simp)
    have : (spaceJoin (w :: ws)).data.head? = w.data.head? := by
      cases ws with
      | nil => rfl
      | cons x ws' =>
        rw [data_spaceJoin_cons_cons]
        cases hwd : w.data with
        | nil => exact absurd hwd hw.1
        | cons a ad => simp
    rw [this] at hc
    exact hw.2 c (List.mem_of_mem_head? (by rw [hc]; rfl))

theorem spaceJoin_no_trailing_ws :
    ∀ (g : List String), (∀ w ∈ g, WordOk w) →
      ∀ c, (spaceJoin g).data.getLast? = some c → pyWhitespace c = false := by
  intro g
  induction g with
  | nil => intro _ c hc; simp [spaceJoin] at hc
  | cons w ws ih =>
    intro hwf c hc
    cases ws with
    | nil =>
      have hw := hwf w (by simp)
      exact hw.2 c (List.mem_of_mem_getLast? (by rw [show (spaceJoin [w]) = w from rfl] at hc; rw [hc]; rfl))
    | cons x ws' =>
      rw [data_spaceJoin_cons_cons] at hc
      have hne : (spaceJoin (x :: ws')).data ≠ [] :=
        WordOk.spaceJoin_ne_empty (x :: ws') (by simp)
          (fun v hv => hwf v (List.mem_cons_of_mem _ hv))
      rw [List.getLast?_append_of_ne_nil _ (by simp)] at hc
      cases hj : (spaceJoin (x :: ws')).data with
      | nil => exact absurd hj hne
      | cons a rest =>
        rw [hj, List.getLast?_cons_cons] at hc
        apply ih (fun v hv => hwf v (List.mem_cons_of_mem _ hv)) c
        rw [hj]
        exact hc

/-- The join of well-formed words has no leading or trailing whitespace,
so Python's `.strip()` leaves it unchanged. -/

theorem pyStrip_spaceJoin (g : List String) (hwf : ∀ w ∈ g, WordOk w) :
    pyStrip (spaceJoin g) = spaceJoin g := by
  apply pyStrip_of_ends
  · exact spaceJoin_no_leading_ws g hwf
  · exact spaceJoin_no_trailing_ws g hwf

theorem pyStrip_join_word (cur : List String) (w : String)
    (hcur : ∀ v ∈ cur, WordOk v) (hw : WordOk w) :
    pyStrip (spaceJoin cur ++ " " ++ w) = spaceJoin (cur ++ [w]) := by
  cases cur with
  | nil =>
    show pyStrip ("" ++ " " ++ w) = spaceJoin [w]
    have hdata : ("" ++ " " ++ w).data = ' ' :: w.data := rfl
    show String.mk (pyStripList (("" ++ " " ++ w).data)) = w
    rw [hdata]
    unfold pyStripList
    rw [List.dropWhile_cons]
    rw [if_pos (by decide)]
    have h1 : w.data.dropWhile pyWhitespace = w.data := by
      cases hwd : w.data with
      | nil => rfl
      | cons a ad =>
        rw [List.dropWhile_cons]
        have : pyWhitespace a = false := hw.2 a (by rw [hwd]; simp)
        simp [this]
    rw [h1]
    have h2 : (w.data.reverse.dropWhile pyWhitespace).reverse = w.data := by
      cases hrev : w.data.reverse with
      | nil => simp_all
      | cons a as =>
        rw [List.dropWhile_cons]
        have ha : w.data.getLast? = some a := by
          rw [← List.head?_reverse, hrev]; rfl
        have : pyWhitespace a = false :=
          hw.2 a (List.mem_of_mem_getLast? (by rw [ha]; rfl))
        simp only [this, Bool.false_eq_true, if_false]
        rw [← hrev, List.reverse_reverse]
    rw [h2, stringMk_data]
  | cons v cur' =>
    rw [← spaceJoin_append_singleton _ _ (by simp)]
    apply pyStrip_spaceJoin
    intro u hu
    rcases List.mem_append.1 hu with hu | hu
    · exact hcur u hu
    · simp at hu; subst hu; exact hw

theorem spaceJoin_ne_empty_str (cur : List String) (h : cur ≠ [])
    (hwf : ∀ v ∈ cur, WordOk v) : spaceJoin cur ≠ "" := by
  intro he
  have := WordOk.spaceJoin_ne_empty cur h hwf
  rw [he] at this
  exact this rfl

/-- The source loop computes exactly the space-joins of the word groups. -/

theorem wrapLoop_eq_wrapGroups (meas : String → ℤ) (width : ℤ) :
    ∀ (ws cur out : List String),
      (∀ w ∈ ws, WordOk w) → (∀ w ∈ cur, WordOk w) →
      wrapLoop meas width ws out (spaceJoin cur) =
        out ++ (wrapGroups meas width ws cur).map spaceJoin := by
  intro ws
  induction ws with
  | nil =>
    intro cur out _ hcur
    show out ++ _ = out ++ _
    cases cur with
    | nil => simp [wrapGroups, spaceJoin]
    | cons v cur' =>
      rw [if_neg (spaceJoin_ne_empty_str _ (by simp) hcur)]
      rw [wrapGroups]
      rw [if_neg (by simp)]
      rfl
  | cons w ws ih =>
    intro cur out hws hcur
    have hw : WordOk w := hws w (by simp)
    have hws' : ∀ v ∈ ws, WordOk v := fun v hv => hws v (List.mem_cons_of_mem _ hv)
    show (let t := pyStrip (spaceJoin cur ++ " " ++ w);
      if meas t > width then
        wrapLoop meas width ws (out ++ (if spaceJoin cur = "" then [] else [spaceJoin cur])) w
      else wrapLoop meas width ws out t) = _
    rw [show pyStrip (spaceJoin cur ++ " " ++ w) = spaceJoin (cur ++ [w]) from
      pyStrip_join_word cur w hcur hw]
    rw [wrapGroups]
    by_cases hfit : meas (spaceJoin (cur ++ [w])) > width
    · rw [if_pos hfit, if_pos hfit]
      have : (w : String) = spaceJoin [w] := rfl
      rw [this]
      rw [ih [w] _ hws' (by intro v hv; simp at hv; subst hv; exact hw)]
      rw [List.map_append, ← List.append_assoc]
      congr 1
      cases cur with
      | nil => simp [spaceJoin]
      | cons v cur' =>
        rw [if_neg (spaceJoin_ne_empty_str _ (by simp) hcur), if_neg (by simp)]
        rfl
    · rw [if_neg hfit, if_neg hfit]
      exact ih (cur ++ [w]) out hws' (by
        intro v hv
        rcases List.mem_append.1 hv with hv | hv
        · exact hcur v hv
        · simp at hv; subst hv; exact hw)

/-! ### Greedy-wrap properties -/

/-- Flattening the groups recovers the word sequence: every word lands
whole, in order, in exactly one group. -/

theorem wrapGroups_join (meas : String → ℤ) (width : ℤ) :
    ∀ (ws cur : List String), (wrapGroups meas width ws cur).flatten = cur ++ ws := by
  intro ws
  induction ws with
  | nil =>
    intro cur
    rw [wrapGroups]
    cases cur with
    | nil => simp
    | cons v cs => simp
  | cons w ws ih =>
    intro cur
    rw [wrapGroups]
    by_cases hfit : meas (spaceJoin (cur ++ [w])) > width
    · rw [if_pos hfit, List.flatten_append, ih [w]]
      cases cur with
      | nil => simp
      | cons v cs => simp
    · rw [if_neg hfit, ih (cur ++ [w])]
      simp

theorem wrapGroups_ne_nil (meas : String → ℤ) (width : ℤ) :
    ∀ (ws cur : List String) (g : List String),
      g ∈ wrapGroups meas width ws cur → g ≠ [] := by
  intro ws
  induction ws with
  | nil =>
    intro cur g hg
    rw [wrapGroups] at hg
    by_cases hc : cur = []
    · rw [if_pos hc] at hg; simp at hg
    · rw [if_neg hc] at hg; simp at hg; subst hg; exact hc
  | cons w ws ih =>
    intro cur g hg
    rw [wrapGroups] at hg
    by_cases hfit : meas (spaceJoin (cur ++ [w])) > width
    · rw [if_pos hfit] at hg
      rcases List.mem_append.1 hg with hg | hg
      · by_cases hc : cur = []
        · rw [if_pos hc] at hg; simp at hg
        · rw [if_neg hc] at hg; simp at hg; subst hg; exact hc
      · exact ih [w] g hg
    · rw [if_neg hfit] at hg
      exact ih (cur ++ [w]) g hg

/-- All words appearing in the output groups come from `cur ++ ws`. -/

theorem wrapGroups_mem_words (meas : String → ℤ) (width : ℤ)
    (ws cur : List String) (g : List String)
    (hg : g ∈ wrapGroups meas width ws cur) : ∀ w ∈ g, w ∈ cur ++ ws := by
  intro w hw
  have : w ∈ (wrapGroups meas width ws cur).flatten := List.mem_flatten.2 ⟨g, hg, hw⟩
  rwa [wrapGroups_join] at this

theorem wrapGroups_prefixFits (meas : String → ℤ) (width : ℤ) :
    ∀ (ws cur : List String), PrefixFits meas width cur →
      ∀ g ∈ wrapGroups meas width ws cur, PrefixFits meas width g := by
  intro ws
  induction ws with
  | nil =>
    intro cur hcur g hg
    rw [wrapGroups] at hg
    by_cases hc : cur = []
    · rw [if_pos hc] at hg; simp at hg
    · rw [if_neg hc] at hg; simp at hg; subst hg; exact hcur
  | cons w ws ih =>
    intro cur hcur g hg
    rw [wrapGroups] at hg
    by_cases hfit : meas (spaceJoin (cur ++ [w])) > width
    · rw [if_pos hfit] at hg
      rcases List.mem_append.1 hg with hg | hg
      · by_cases hc : cur = []
        · rw [if_pos hc] at hg; simp at hg
        · rw [if_neg hc] at hg; simp at hg; subst hg; exact hcur
      · refine ih [w] ?_ g hg
        intro k h2 hk
        simp at hk
        omega
    · rw [if_neg hfit] at hg
      refine ih (cur ++ [w]) ?_ g hg
      intro k h2 hk
      rcases Nat.lt_or_ge k (cur.length + 1) with hlt | hge
      · have hk' : k ≤ cur.length := by omega
        rw [List.take_append_of_le_length hk']
        exact hcur k h2 hk'
      · have : k = cur.length + 1 := by
          have := hk
          simp at this
          omega
        rw [this, List.take_of_length_le (by simp)]
        exact hfit

/-- The first group of the output starts with the first word of `cur`. -/

theorem wrapGroups_head (meas : String → ℤ) (width : ℤ) :
    ∀ (ws : List String) (w0 : String) (cs : List String),
      ∃ g t, wrapGroups meas width ws (w0 :: cs) = (w0 :: g) :: t := by
  intro ws
  induction ws with
  | nil =>
    intro w0 cs
    rw [wrapGroups, if_neg (by simp)]
    exact ⟨cs, [], rfl⟩
  | cons w ws ih =>
    intro w0 cs
    rw [wrapGroups]
    by_cases hfit : meas (spaceJoin ((w0 :: cs) ++ [w])) > width
    · rw [if_pos hfit, if_neg (by simp)]
      exact ⟨cs, wrapGroups meas width ws [w], rfl⟩
    · rw [if_neg hfit]
      exact ih w0 (cs ++ [w])

theorem wrapGroups_chain (meas : String → ℤ) (width : ℤ) :
    ∀ (ws cur : List String),
      List.Chain' (FlushRel meas width) (wrapGroups meas width ws cur) := by
  intro ws
  induction ws with
  | nil =>
    intro cur
    rw [wrapGroups]
    by_cases hc : cur = []
    · rw [if_pos hc]; exact List.chain'_nil
    · rw [if_neg hc]; exact List.chain'_singleton _
  | cons w ws ih =>
    intro cur
    rw [wrapGroups]
    by_cases hfit : meas (spaceJoin (cur ++ [w])) > width
    · rw [if_pos hfit]
      cases cur with
      | nil => simpa using ih [w]
      | cons v cs =>
        rw [if_neg (by simp)]
        show List.Chain' _ ((v :: cs) :: wrapGroups meas width ws [w])
        rw [List.chain'_cons']
        constructor
        · intro y hy
          rcases wrapGroups_head meas width ws w [] with ⟨g, t, hgt⟩
          rw [hgt] at hy
          simp at hy
          subst hy
          intro u hu
          simp at hu
          subst hu
          exact hfit
        · exact ih [w]
    · rw [if_neg hfit]
      exact ih (cur ++ [w])

/-- Transfer of `Chain'` along a function, using membership. -/

theorem chain'_imp_mem {α : Type} {R S : α → α → Prop} :
    ∀ (l : List α), (∀ a ∈ l, ∀ b ∈ l, R a b → S a b) →
      List.Chain' R l → List.Chain' S l := by
  intro l
  induction l with
  | nil => intro _ _; exact List.chain'_nil
  | cons a l ih =>
    intro h hc
    rw [List.chain'_cons'] at hc ⊢
    constructor
    · intro b hb
      exact h a (by simp) b (List.mem_cons_of_mem _ (List.mem_of_mem_head? hb))
        (hc.1 b hb)
    · exact ih (fun x hx y hy => h x (List.mem_cons_of_mem _ hx) y (List.mem_cons_of_mem _ hy)) hc.2

/-- Standalone flattening property of `_wrap_lines`: the words of the
output lines, concatenated in order, are exactly the words of the input. -/

theorem wrap_lines_flatten (sw : String → String → ℤ → ℤ) (text : String)
    (width : ℤ) (font : String) (size : ℤ) :
    ((wrap_lines sw text width font size).map pySplit).flatten = pySplit text := by
  set meas := fun t => sw t font size with hmeas
  have hlines : wrap_lines sw text width font size =
      (wrapGroups meas width (pySplit text) []).map spaceJoin := by
    unfold wrap_lines
    have := wrapLoop_eq_wrapGroups meas width (pySplit text) [] []
      (pySplit_wf text) (by simp)
    simpa [spaceJoin] using this
  have hwfg : ∀ g ∈ wrapGroups meas width (pySplit text) [], ∀ w ∈ g, WordOk w := by
    intro g hg w hw
    have := wrapGroups_mem_words meas width (pySplit text) [] g hg w hw
    simp at this
    exact pySplit_wf text w this
  rw [hlines, List.map_map]
  have : (wrapGroups meas width (pySplit text) []).map (pySplit ∘ spaceJoin) =
      (wrapGroups meas width (pySplit text) []).map id :=
    List.map_congr_left (fun g hg => pySplit_spaceJoin g (hwfg g hg))
  rw [this, List.map_id]
  have := wrapGroups_join meas width (pySplit text) []
  simpa using this

/-! ## Claim C9 -/

/-- Claim C9 (confirmed): `_wrap_lines` is greedy word wrap with no
hyphenation.  For every measure `sw`, font, size, width and text:
(1) the words of the output lines, concatenated in order, are exactly the
words of the input — each word appears whole, in order, in exactly one
line; (2) no output line is empty; (3) within a line, every word was
appended only when the extended line still measured within the width
(`PrefixFits`); (4) at every line break the flushed line extended by the
next line's first word measured over the width (`FlushRel`). -/

theorem C9_wrap_lines_greedy (sw : String → String → ℤ → ℤ) (font : String)
    (size width : ℤ) (text : String) :
    ((wrap_lines sw text width font size).map pySplit).flatten = pySplit text ∧
    (∀ l ∈ wrap_lines sw text width font size, pySplit l ≠ []) ∧
    (∀ l ∈ wrap_lines sw text width font size,
      PrefixFits (fun t => sw t font size) width (pySplit l)) ∧
    List.Chain' (fun l l' =>
        FlushRel (fun t => sw t font size) width (pySplit l) (pySplit l'))
      (wrap_lines sw text width font size) := by
  set meas := fun t => sw t font size with hmeas
  have hlines : wrap_lines sw text width font size =
      (wrapGroups meas width (pySplit text) []).map spaceJoin := by
    unfold wrap_lines
    have := wrapLoop_eq_wrapGroups meas width (pySplit text) [] []
      (pySplit_wf text) (by simp)
    simpa [spaceJoin] using this
  have hwfg : ∀ g ∈ wrapGroups meas width (pySplit text) [], ∀ w ∈ g, WordOk w := by
    intro g hg w hw
    have := wrapGroups_mem_words meas width (pySplit text) [] g hg w hw
    simp at this
    exact pySplit_wf text w this
  have hsplitg : ∀ g ∈ wrapGroups meas width (pySplit text) [],
      pySplit (spaceJoin g) = g := fun g hg => pySplit_spaceJoin g (hwfg g hg)
  refine ⟨wrap_lines_flatten sw text width font size, ?_, ?_, ?_⟩
  · intro l hl
    rw [hlines] at hl
    rcases List.mem_map.1 hl with ⟨g, hg, hgl⟩
    subst hgl
    rw [hsplitg g hg]
    exact wrapGroups_ne_nil meas width (pySplit text) [] g hg
  · intro l hl
    rw [hlines] at hl
    rcases List.mem_map.1 hl with ⟨g, hg, hgl⟩
    subst hgl
    rw [hsplitg g hg]
    refine wrapGroups_prefixFits meas width (pySplit text) [] ?_ g hg
    intro k h2 hk
    simp at hk
    omega
  · rw [hlines]
    rw [List.chain'_map]
    refine chain'_imp_mem _ ?_ (wrapGroups_chain meas width (pySplit text) [])
    intro g hg g' hg' hrel
    rw [hsplitg g hg, hsplitg g' hg']
    exact hrel

/-- Witness for C9 at a concrete measure, width and text. -/

theorem C9_wrap_lines_greedy_witness :
    ((wrap_lines swLen "hello wrapped world" 7 "Helvetica" 11).map pySplit).flatten =
      pySplit "hello wrapped world" :=
  (C9_wrap_lines_greedy swLen "Helvetica" 11 7 "hello wrapped world").1

theorem opsLe_refl (st : PdfState) : opsLe st st := ⟨[], by simp⟩

theorem opsLe_trans {a b c : PdfState} (h1 : opsLe a b) (h2 : opsLe b c) :
    opsLe a c := by
  rcases h1 with ⟨t1, h1⟩
  rcases h2 with ⟨t2, h2⟩
  exact ⟨t1 ++ t2, by rw [h2, h1, List.append_assoc]⟩

theorem opsLe_mem {st st' : PdfState} (h : opsLe st st') {op : PdfOp}
    (hop : op ∈ st.ops) : op ∈ st'.ops := by
  rcases h with ⟨t, ht⟩
  rw [ht]
  exact List.mem_append_left _ hop

theorem SamePageEmit.pdfStep {f : PdfState → PdfState}
    (h : SamePageEmit f) : PdfStep f := by
  intro st
  rcases h st with ⟨hpage, t, hops, hemit⟩
  refine ⟨?_, ?_, ⟨t, hops⟩⟩
  · intro hinv p hp
    rw [hpage] at hp
    rw [hops]
    exact List.mem_append_left _ (hinv p hp)
  · intro hni op hop
    rw [hops] at hop
    rcases List.mem_append.1 hop with hop | hop
    · exact hni op hop
    · exact (hemit op hop).2.2

theorem samePageEmit_id : SamePageEmit (fun st => st) := by
  intro st
  exact ⟨rfl, [], by simp, by simp⟩

theorem samePageEmit_comp {f g : PdfState → PdfState}
    (hf : SamePageEmit f) (hg : SamePageEmit g) :
    SamePageEmit (fun st => g (f st)) := by
  intro st
  rcases hf st with ⟨hfp, t1, hf1, hf2⟩
  rcases hg (f st) with ⟨hgp, t2, hg1, hg2⟩
  refine ⟨by rw [hgp, hfp], t1 ++ t2, by rw [hg1, hf1, List.append_assoc], ?_⟩
  intro op hop
  rcases List.mem_append.1 hop with hop | hop
  · exact hf2 op hop
  · have := hg2 op hop
    rwa [hfp] at this

theorem samePageEmit_foldl {α : Type} (f : α → PdfState → PdfState)
    (h : ∀ a, SamePageEmit (f a)) :
    ∀ (l : List α), SamePageEmit (fun st => l.foldl (fun s a => f a s) st) := by
  intro l
  induction l with
  | nil => simpa using samePageEmit_id
  | cons a l ih =>
    have := samePageEmit_comp (h a) ih
    intro st
    exact this st

theorem pdfStep_comp {f g : PdfState → PdfState}
    (hf : PdfStep f) (hg : PdfStep g) : PdfStep (fun st => g (f st)) := by
  intro st
  rcases hf st with ⟨hf1, hf2, hf3⟩
  rcases hg (f st) with ⟨hg1, hg2, hg3⟩
  exact ⟨fun h => hg1 (hf1 h), fun h => hg2 (hf2 h), opsLe_trans hf3 hg3⟩

theorem pdfStep_foldl {α : Type} (f : α → PdfState → PdfState)
    (h : ∀ a, PdfStep (f a)) :
    ∀ (l : List α), PdfStep (fun st => l.foldl (fun s a => f a s) st) := by
  intro l
  induction l with
  | nil => intro st; exact ⟨id, id, opsLe_refl st⟩
  | cons a l ih =>
    have := pdfStep_comp (h a) ih
    intro st
    exact this st

theorem foldl_opsLe {α : Type} (f : α → PdfState → PdfState)
    (hext : ∀ a st, opsLe st (f a st)) :
    ∀ (l : List α) (st : PdfState), opsLe st (l.foldl (fun s a => f a s) st) := by
  intro l
  induction l with
  | nil => intro st; exact opsLe_refl st
  | cons a l ih => intro st; exact opsLe_trans (hext a st) (ih (f a st))

/-- Transport of an (ops-monotone) emission property through a fold. -/

theorem foldl_prop {α : Type} (f : α → PdfState → PdfState)
    (Q : α → PdfState → Prop)
    (hext : ∀ a st, opsLe st (f a st))
    (hmono : ∀ a st st', Q a st → opsLe st st' → Q a st')
    (hemit : ∀ a st, Q a (f a st)) :
    ∀ (l : List α) (st : PdfState) (a : α), a ∈ l →
      Q a (l.foldl (fun s a => f a s) st) := by
  intro l
  induction l with
  | nil => intro st a ha; simp at ha
  | cons b l ih =>
    intro st a ha
    rcases List.mem_cons.1 ha with ha | ha
    · subst ha
      exact hmono a (f a st) _ (hemit a st) (foldl_opsLe f hext l (f a st))
    · exact ih (f b st) a ha

theorem drawTextAt_samePageEmit (x y : ℤ) (s : String) :
    SamePageEmit (drawTextAt x y s) := by
  intro st
  refine ⟨rfl, [PdfOp.text st.page x y s], rfl, ?_⟩
  intro op hop
  simp at hop
  subst hop
  exact ⟨rfl, rfl, rfl⟩

theorem curYUpdate_samePageEmit (g : PdfState → ℤ) :
    SamePageEmit (fun st => { st with curY := g st }) := by
  intro st
  exact ⟨rfl, [], by simp, by simp⟩

theorem drawWrappedLines_samePageEmit (lines : List String) :
    SamePageEmit (drawWrappedLines lines) := by
  have := samePageEmit_foldl
    (fun (ln : String) (s : PdfState) =>
      { page := s.page, curY := s.curY - LINE,
        ops := s.ops ++ [PdfOp.text s.page MARGIN_X s.curY ln] })
    (by
      intro ln st
      refine ⟨rfl, [PdfOp.text st.page MARGIN_X st.curY ln], rfl, ?_⟩
      intro op hop
      simp at hop
      subst hop
      exact ⟨rfl, rfl, rfl⟩)
    lines
  intro st
  exact this st

theorem draw_bullets_samePageEmit (sw : String → String → ℤ → ℤ)
    (title : String) (items : List String) :
    SamePageEmit (draw_bullets sw title items) := by
  intro st
  unfold draw_bullets
  by_cases hi : items = []
  · rw [if_pos hi]
    exact samePageEmit_id st
  · rw [if_neg hi]
    show ({ (items.foldl (fun s item => drawWrappedLines _ s)
        ({ drawTextAt MARGIN_X _ title { st with curY := st.curY - SECTION_GAP } with
          curY := st.curY - SECTION_GAP - LINE } : PdfState)) with
        curY := _ } : PdfState).page = st.page ∧ _
    set st1 : PdfState := { st with curY := st.curY - SECTION_GAP } with hst1
    set st2 : PdfState := { drawTextAt MARGIN_X st1.curY title st1 with
      curY := st1.curY - LINE } with hst2
    have h2page : st2.page = st.page := rfl
    have h2ops : st2.ops = st.ops ++ [PdfOp.text st.page MARGIN_X st1.curY title] := rfl
    rcases samePageEmit_foldl
        (fun (item : String) =>
          drawWrappedLines (wrap_lines sw ("• " ++ item) (pageW - 2 * MARGIN_X) "Helvetica" 11))
        (fun item => drawWrappedLines_samePageEmit _) items st2 with ⟨h3page, t3, h3ops, h3emit⟩
    refine ⟨by rw [h3page, h2page], PdfOp.text st.page MARGIN_X st1.curY title :: t3, ?_, ?_⟩
    · show (items.foldl _ st2).ops = _
      rw [h3ops, h2ops, List.append_assoc]
      rfl
    · intro op hop
      rcases List.mem_cons.1 hop with hop | hop
      · subst hop
        exact ⟨rfl, rfl, rfl⟩
      · have := h3emit op hop
        rwa [h2page] at this

/-! ### Shapes of the individual drawing steps -/

theorem drawLinesAt_props (page : Nat) (x : ℤ) :
    ∀ (lines : List String) (ty : ℤ), ∀ op ∈ (drawLinesAt page x lines ty).1,
      op.pageOf = page ∧ op.isFooter = false ∧ op.isImage = false := by
  intro lines
  induction lines with
  | nil => intro ty op hop; simp [drawLinesAt] at hop
  | cons ln ls ih =>
    intro ty op hop
    rw [drawLinesAt] at hop
    rcases List.mem_cons.1 hop with hop | hop
    · subst hop; exact ⟨rfl, rfl, rfl⟩
    · exact ih (ty - LINE) op hop

theorem drawLinesAt_mem (page : Nat) (x : ℤ) :
    ∀ (lines : List String) (ty : ℤ), ∀ ln ∈ lines,
      ∃ y, PdfOp.text page x y ln ∈ (drawLinesAt page x lines ty).1 := by
  intro lines
  induction lines with
  | nil => intro ty ln hln; simp at hln
  | cons l0 ls ih =>
    intro ty ln hln
    rcases List.mem_cons.1 hln with hln | hln
    · subst hln
      exact ⟨ty, by rw [drawLinesAt]; exact List.mem_cons_self _ _⟩
    · rcases ih (ty - LINE) ln hln with ⟨y, hy⟩
      exact ⟨y, by rw [drawLinesAt]; exact List.mem_cons_of_mem _ hy⟩

theorem rowOps_props (sw : String → String → ℤ → ℤ) (page : Nat) (left : ℤ)
    (lbl : String) (lines : List String) (labelMin ty : ℤ) :
    ∀ op ∈ (rowOps sw page left lbl lines labelMin ty).1,
      op.pageOf = page ∧ op.isFooter = false ∧ op.isImage = false := by
  intro op hop
  unfold rowOps at hop
  by_cases hl : lines = []
  · rw [if_pos hl] at hop; simp at hop
  · rw [if_neg hl] at hop
    rcases List.mem_cons.1 hop with hop | hop
    · subst hop; exact ⟨rfl, rfl, rfl⟩
    · exact drawLinesAt_props page _ lines ty op hop

theorem ensure_space_break (px : ℤ) (st : PdfState)
    (h : st.curY - px < BOTTOM_BUF) :
    ensure_space px st =
      ({ page := st.page + 1, curY := TOP_Y - TOP_START_GAP,
         ops := st.ops ++ [PdfOp.footerMark st.page] } : PdfState) := by
  unfold ensure_space
  rw [if_pos h]

theorem ensure_space_stay (px : ℤ) (st : PdfState)
    (h : ¬ st.curY - px < BOTTOM_BUF) :
    ensure_space px st = st := by
  unfold ensure_space
  rw [if_neg h]

theorem ensure_space_pdfStep (px : ℤ) : PdfStep (ensure_space px) := by
  intro st
  by_cases h : st.curY - px < BOTTOM_BUF
  · rw [ensure_space_break px st h]
    refine ⟨?_, ?_, ⟨[PdfOp.footerMark st.page], rfl⟩⟩
    · intro hinv p hp
      show PdfOp.footerMark p ∈ st.ops ++ [PdfOp.footerMark st.page]
      rcases Nat.lt_or_ge p st.page with hlt | hge
      · exact List.mem_append_left _ (hinv p hlt)
      · have : p = st.page := by
          have : p < st.page + 1 := hp
          omega
        subst this
        simp
    · intro hni op hop
      rcases List.mem_append.1 hop with hop | hop
      · exact hni op hop
      · simp at hop; subst hop; rfl
  · rw [ensure_space_stay px st h]
    exact ⟨id, id, opsLe_refl st⟩

theorem qbOps_props (sw : String → String → ℤ → ℤ) (q : Question)
    (st1 : PdfState) :
    ∀ op ∈ qbOps sw q st1,
      op.pageOf = st1.page ∧ op.isFooter = false ∧ op.isImage = false := by
  intro op hop
  unfold qbOps at hop
  rcases List.mem_cons.1 hop with hop | hop
  · subst hop; exact ⟨rfl, rfl, rfl⟩
  rcases List.mem_append.1 hop with hop | hop
  on_goal 2 => exact rowOps_props _ _ _ _ _ _ _ op hop
  rcases List.mem_append.1 hop with hop | hop
  on_goal 2 => exact rowOps_props _ _ _ _ _ _ _ op hop
  rcases List.mem_append.1 hop with hop | hop
  · exact drawLinesAt_props _ _ _ _ op hop
  · exact rowOps_props _ _ _ _ _ _ _ op hop

theorem qbOps_qlines_mem (sw : String → String → ℤ → ℤ) (q : Question)
    (st1 : PdfState) :
    ∀ ln ∈ q_lines sw q,
      ∃ y, PdfOp.text st1.page (MARGIN_X + PAD_TOP) y ln ∈ qbOps sw q st1 := by
  intro ln hln
  rcases drawLinesAt_mem st1.page (MARGIN_X + PAD_TOP) (q_lines sw q)
    (st1.curY - PAD_TOP) ln hln with ⟨y, hy⟩
  refine ⟨y, ?_⟩
  unfold qbOps
  refine List.mem_cons_of_mem _ ?_
  exact List.mem_append_left _ (List.mem_append_left _ (List.mem_append_left _ hy))

theorem question_block_page (sw : String → String → ℤ → ℤ) (q : Question)
    (st : PdfState) :
    (question_block sw q st).page =
      (ensure_space (block_h sw q + BLOCK_GAP) st).page := rfl

theorem question_block_curY (sw : String → String → ℤ → ℤ) (q : Question)
    (st : PdfState) :
    (question_block sw q st).curY =
      (ensure_space (block_h sw q + BLOCK_GAP) st).curY - block_h sw q - BLOCK_GAP := rfl

theorem question_block_ops (sw : String → String → ℤ → ℤ) (q : Question)
    (st : PdfState) :
    (question_block sw q st).ops =
      (ensure_space (block_h sw q + BLOCK_GAP) st).ops ++
        qbOps sw q (ensure_space (block_h sw q + BLOCK_GAP) st) := rfl

theorem question_block_pdfStep (sw : String → String → ℤ → ℤ) (q : Question) :
    PdfStep (question_block sw q) := by
  intro st
  rcases ensure_space_pdfStep (block_h sw q + BLOCK_GAP) st with ⟨hf, hn, hle⟩
  refine ⟨?_, ?_, ?_⟩
  · intro hinv p hp
    rw [question_block_page] at hp
    rw [question_block_ops]
    exact List.mem_append_left _ (hf hinv p hp)
  · intro hni op hop
    rw [question_block_ops] at hop
    rcases List.mem_append.1 hop with hop | hop
    · exact hn hni op hop
    · exact (qbOps_props sw q _ op hop).2.2
  · exact opsLe_trans hle ⟨_, question_block_ops sw q st⟩

theorem sectionTitlePart_page (sec : PackSection) (st : PdfState) :
    (sectionTitlePart sec st).page = st.page := rfl

theorem sectionTitlePart_ops (sec : PackSection) (st : PdfState) :
    (sectionTitlePart sec st).ops =
      st.ops ++ [PdfOp.text st.page MARGIN_X (st.curY - SECTION_GAP) sec.name] := rfl

theorem sectionBulletsPart_samePageEmit (sw : String → String → ℤ → ℤ)
    (sec : PackSection) : SamePageEmit (sectionBulletsPart sw sec) := by
  intro st
  unfold sectionBulletsPart
  by_cases hb : sec.bullets = []
  · rw [if_pos hb]
    exact samePageEmit_id st
  · rw [if_neg hb]
    rcases samePageEmit_foldl
        (fun (item : String) =>
          drawWrappedLines (wrap_lines sw ("• " ++ item) (pageW - 2 * MARGIN_X) "Helvetica" 11))
        (fun item => drawWrappedLines_samePageEmit _) sec.bullets st with
      ⟨h3page, t3, h3ops, h3emit⟩
    exact ⟨h3page, t3, h3ops, h3emit⟩

theorem sectionNotesPart_samePageEmit (sw : String → String → ℤ → ℤ)
    (sec : PackSection) : SamePageEmit (sectionNotesPart sw sec) := by
  intro st
  unfold sectionNotesPart
  by_cases hn : sec.notes = ""
  · rw [if_pos hn]
    exact samePageEmit_id st
  · rw [if_neg hn]
    rcases drawWrappedLines_samePageEmit
      (wrap_lines sw sec.notes (pageW - 2 * MARGIN_X) "Helvetica" 11) st with
      ⟨h4page, t4, h4ops, h4emit⟩
    exact ⟨h4page, t4, h4ops, h4emit⟩

/-- The non-question part of a section: stays on the page, emits the
section title first, then only text. -/

theorem sectionHeaderPart_shape (sw : String → String → ℤ → ℤ)
    (sec : PackSection) (st : PdfState) :
    (sectionHeaderPart sw sec st).page = st.page ∧
    ∃ t, (sectionHeaderPart sw sec st).ops =
        st.ops ++ PdfOp.text st.page MARGIN_X (st.curY - SECTION_GAP) sec.name :: t ∧
      ∀ op ∈ t, op.pageOf = st.page ∧ op.isFooter = false ∧ op.isImage = false := by
  unfold sectionHeaderPart
  rcases sectionBulletsPart_samePageEmit sw sec (sectionTitlePart sec st) with
    ⟨h3page, t3, h3ops, h3emit⟩
  rcases sectionNotesPart_samePageEmit sw sec
    (sectionBulletsPart sw sec (sectionTitlePart sec st)) with ⟨h4page, t4, h4ops, h4emit⟩
  have h1page := sectionTitlePart_page sec st
  refine ⟨by rw [h4page, h3page, h1page], t3 ++ t4, ?_, ?_⟩
  · rw [h4ops, h3ops, sectionTitlePart_ops]
    simp [List.append_assoc]
  · intro op hop
    rcases List.mem_append.1 hop with hop | hop
    · have := h3emit op hop
      rwa [h1page] at this
    · have := h4emit op hop
      rwa [h3page, h1page] at this

theorem sectionHeaderPart_samePageEmit (sw : String → String → ℤ → ℤ)
    (sec : PackSection) : SamePageEmit (sectionHeaderPart sw sec) := by
  intro st
  rcases sectionHeaderPart_shape sw sec st with ⟨hpage, t, hops, hemit⟩
  refine ⟨hpage, PdfOp.text st.page MARGIN_X (st.curY - SECTION_GAP) sec.name :: t,
    hops, ?_⟩
  intro op hop
  rcases List.mem_cons.1 hop with hop | hop
  · subst hop; exact ⟨rfl, rfl, rfl⟩
  · exact hemit op hop

theorem drawSection_pdfStep (sw : String → String → ℤ → ℤ) (sec : PackSection) :
    PdfStep (drawSection sw sec) := by
  have hq := pdfStep_foldl (fun q => question_block sw q)
    (fun q => question_block_pdfStep sw q) sec.questions
  have hh := (sectionHeaderPart_samePageEmit sw sec).pdfStep
  intro st
  rcases hh st with ⟨h1, h2, h3⟩
  rcases hq (sectionHeaderPart sw sec st) with ⟨h4, h5, h6⟩
  exact ⟨fun h => h4 (h1 h), fun h => h5 (h2 h), opsLe_trans h3 h6⟩

/-! ### Assembling `pack_to_pdf` -/

theorem pdfHeader_page (pack : Pack) (tenant url : String)
    (fetch : Except String Unit) : (pdfHeader pack tenant url fetch).page = 0 := by
  unfold pdfHeader
  by_cases hu : url = "" <;> by_cases ht : tenant = "" <;> cases fetch <;>
    simp [hu, ht, drawTextAt]

theorem pdfHeader_title_mem (pack : Pack) (tenant url : String)
    (fetch : Except String Unit) :
    PdfOp.text 0 MARGIN_X (TOP_Y - 18 * mm) pack.title ∈
      (pdfHeader pack tenant url fetch).ops := by
  unfold pdfHeader
  by_cases hu : url = "" <;> by_cases ht : tenant = "" <;> cases fetch <;>
    simp [hu, ht, drawTextAt]

theorem pdfHeader_meta_mem (pack : Pack) (tenant url : String)
    (fetch : Except String Unit) :
    PdfOp.text 0 MARGIN_X (TOP_Y - 24 * mm) (metaLine pack) ∈
      (pdfHeader pack tenant url fetch).ops := by
  unfold pdfHeader
  by_cases hu : url = "" <;> by_cases ht : tenant = "" <;> cases fetch <;>
    simp [hu, ht, drawTextAt]

/-- With a failing logo fetch the header contains no image at all. -/

theorem pdfHeader_noImage_of_error (pack : Pack) (tenant url : String)
    (e : String) : NoImage (pdfHeader pack tenant url (Except.error e)) := by
  intro op hop
  unfold pdfHeader at hop
  by_cases hu : url = "" <;> by_cases ht : tenant = "" <;>
    simp [hu, ht, drawTextAt] at hop <;>
    (rcases hop with rfl | rfl | rfl <;> rfl)

/-- The header is unchanged between a failing fetch and no logo URL. -/

theorem pdfHeader_error_eq_no_logo (pack : Pack) (tenant url : String)
    (e : String) (fetch : Except String Unit) :
    pdfHeader pack tenant url (Except.error e) = pdfHeader pack tenant "" fetch := by
  unfold pdfHeader
  by_cases hu : url = "" <;> simp [hu]

theorem footer_page (st : PdfState) : (footer st).page = st.page := rfl

theorem footer_ops (st : PdfState) :
    (footer st).ops = st.ops ++ [PdfOp.footerMark st.page] := rfl

/-- From the header state to the final state, operations are only
appended, and the footer / no-image invariants are preserved. -/

theorem pdf_tail_pdfStep (sw : String → String → ℤ → ℤ) (pack : Pack) :
    PdfStep (fun st =>
      pack.sections.foldl (fun s sec => drawSection sw sec s)
        (draw_bullets sw "Housekeeping" pack.housekeeping st)) := by
  have h1 := (draw_bullets_samePageEmit sw "Housekeeping" pack.housekeeping).pdfStep
  have h2 := pdfStep_foldl (fun sec => drawSection sw sec)
    (fun sec => drawSection_pdfStep sw sec) pack.sections
  intro st
  rcases h1 st with ⟨ha, hb, hc⟩
  rcases h2 (draw_bullets sw "Housekeeping" pack.housekeeping st) with ⟨hd, he, hf⟩
  exact ⟨fun h => hd (ha h), fun h => he (hb h), opsLe_trans hc hf⟩

theorem pack_to_pdf_state_eq (sw : String → String → ℤ → ℤ) (pack : Pack)
    (tenant url : String) (fetch : Except String Unit) :
    pack_to_pdf_state sw pack tenant url fetch =
      footer (pack.sections.foldl (fun s sec => drawSection sw sec s)
        (draw_bullets sw "Housekeeping" pack.housekeeping
          (pdfHeader pack tenant url fetch))) := rfl

theorem pdf_opsLe_header (sw : String → String → ℤ → ℤ) (pack : Pack)
    (tenant url : String) (fetch : Except String Unit) :
    opsLe (pdfHeader pack tenant url fetch)
      (pack_to_pdf_state sw pack tenant url fetch) := by
  rw [pack_to_pdf_state_eq]
  refine opsLe_trans ((pdf_tail_pdfStep sw pack) (pdfHeader pack tenant url fetch)).2.2 ?_
  exact ⟨[PdfOp.footerMark _], footer_ops _⟩

/-! ## Claim C1 -/

/-- Claim C1 (amended): only **question blocks** are pre-measured and
paginated.  `question_block` pre-measures `block_h` and, exactly when
drawing from the current cursor would cross the fixed bottom buffer,
emits the page footer, starts a new page and resets the cursor to the
fixed top offset before drawing; in both cases everything it draws lands
on a single page with no further footer, so a question block is never
split across two pages.  The original claim's quantification over *every*
emittable block (housekeeping bullet list, section title) is false: those
are drawn with no page-break check at all (see the counterexample). -/

theorem C1_question_block_pagination (sw : String → String → ℤ → ℤ)
    (q : Question) (st : PdfState) :
    (st.curY - (block_h sw q + BLOCK_GAP) < BOTTOM_BUF →
      (question_block sw q st).page = st.page + 1 ∧
      (question_block sw q st).curY =
        (TOP_Y - TOP_START_GAP) - block_h sw q - BLOCK_GAP ∧
      ∃ t, (question_block sw q st).ops = st.ops ++ PdfOp.footerMark st.page :: t ∧
        ∀ op ∈ t, op.pageOf = st.page + 1 ∧ op.isFooter = false) ∧
    (¬ st.curY - (block_h sw q + BLOCK_GAP) < BOTTOM_BUF →
      (question_block sw q st).page = st.page ∧
      (question_block sw q st).curY = st.curY - block_h sw q - BLOCK_GAP ∧
      ∃ t, (question_block sw q st).ops = st.ops ++ t ∧
        ∀ op ∈ t, op.pageOf = st.page ∧ op.isFooter = false) := by
  constructor
  · intro h
    have hes := ensure_space_break (block_h sw q + BLOCK_GAP) st h
    refine ⟨by rw [question_block_page, hes], by rw [question_block_curY, hes], ?_⟩
    refine ⟨qbOps sw q (ensure_space (block_h sw q + BLOCK_GAP) st), ?_, ?_⟩
    · rw [question_block_ops, hes]
      simp
    · intro op hop
      have := qbOps_props sw q (ensure_space (block_h sw q + BLOCK_GAP) st) op hop
      rw [hes] at this
      exact ⟨this.1, this.2.1⟩
  · intro h
    have hes := ensure_space_stay (block_h sw q + BLOCK_GAP) st h
    refine ⟨by rw [question_block_page, hes], by rw [question_block_curY, hes], ?_⟩
    refine ⟨qbOps sw q (ensure_space (block_h sw q + BLOCK_GAP) st), ?_, ?_⟩
    · rw [question_block_ops, hes]
    · intro op hop
      have := qbOps_props sw q (ensure_space (block_h sw q + BLOCK_GAP) st) op hop
      rw [hes] at this
      exact ⟨this.1, this.2.1⟩

/-- Witness for C1: both branches at concrete states. -/

theorem C1_question_block_pagination_witness :
    (question_block swZero qEx stLow).page = 1 ∧
    (question_block swZero qEx stHigh).page = 0 :=
  ⟨((C1_question_block_pagination swZero qEx stLow).1 (by decide)).1,
   ((C1_question_block_pagination swZero qEx stHigh).2 (by decide)).1⟩

/-- Counterexample for C1 as stated: a pack whose housekeeping bullet
list overflows the page is drawn with **no** page break — the final page
index is still 0 and bullet text is drawn below the bottom buffer (even
off the page). -/

theorem C1_counterexample :
    (pack_to_pdf_state swZero hkPack "" "" (Except.error "")).page = 0 ∧
    ((pack_to_pdf swZero hkPack "" "" (Except.error "")).any belowBufferText) = true := by
  constructor
  · decide
  · decide

/-! ## Claim C5 -/

/-- Claim C5 (confirmed): for every pack — including the empty pack with no
sections and no housekeeping — the rendered PDF contains the pack title
and the subtitle metadata line (on page 0), every section's name, every
question's wrapped text (whose words are exactly the words of the
question, all on one page), and a footer mark on every page up to and
including the last. -/

theorem C5_pdf_document_contents (sw : String → String → ℤ → ℤ) (pack : Pack)
    (tenant url : String) (fetch : Except String Unit) :
    PdfOp.text 0 MARGIN_X (TOP_Y - 18 * mm) pack.title ∈
      pack_to_pdf sw pack tenant url fetch ∧
    PdfOp.text 0 MARGIN_X (TOP_Y - 24 * mm) (metaLine pack) ∈
      pack_to_pdf sw pack tenant url fetch ∧
    (∀ sec ∈ pack.sections, ∃ p y,
      PdfOp.text p MARGIN_X y sec.name ∈ pack_to_pdf sw pack tenant url fetch) ∧
    (∀ sec ∈ pack.sections, ∀ q ∈ sec.questions, ∃ p,
      (∀ ln ∈ q_lines sw q, ∃ y,
        PdfOp.text p (MARGIN_X + PAD_TOP) y ln ∈ pack_to_pdf sw pack tenant url fetch) ∧
      ((q_lines sw q).map pySplit).flatten = pySplit (pyStrip q.question)) ∧
    (∀ p, p ≤ (pack_to_pdf_state sw pack tenant url fetch).page →
      PdfOp.footerMark p ∈ pack_to_pdf sw pack tenant url fetch) := by
  have hLe := pdf_opsLe_header sw pack tenant url fetch
  have hfin : pack_to_pdf sw pack tenant url fetch =
      (pack_to_pdf_state sw pack tenant url fetch).ops := rfl
  have hsplit := pack_to_pdf_state_eq sw pack tenant url fetch
  -- the state right before the final footer
  set st6 := draw_bullets sw "Housekeeping" pack.housekeeping
    (pdfHeader pack tenant url fetch) with hst6
  set st7 := pack.sections.foldl (fun s sec => drawSection sw sec s) st6 with hst7
  have hops7 : (pack_to_pdf_state sw pack tenant url fetch).ops =
      st7.ops ++ [PdfOp.footerMark st7.page] := by
    rw [hsplit]; rfl
  have hLe7 : opsLe st7 (pack_to_pdf_state sw pack tenant url fetch) :=
    ⟨[PdfOp.footerMark st7.page], hops7⟩
  refine ⟨opsLe_mem hLe (pdfHeader_title_mem pack tenant url fetch),
    opsLe_mem hLe (pdfHeader_meta_mem pack tenant url fetch), ?_, ?_, ?_⟩
  · -- every section name
    intro sec hsec
    have hone := foldl_prop (fun sec st => drawSection sw sec st)
      (fun sec st' => ∃ p y, PdfOp.text p MARGIN_X y sec.name ∈ st'.ops)
      (fun sec st => ((drawSection_pdfStep sw sec) st).2.2)
      (by
        intro sec st st' hq hle
        rcases hq with ⟨p, y, hmem⟩
        exact ⟨p, y, opsLe_mem hle hmem⟩)
      (by
        intro sec st
        rcases sectionHeaderPart_shape sw sec st with ⟨_, t, hops, _⟩
        have hmem : PdfOp.text st.page MARGIN_X (st.curY - SECTION_GAP) sec.name ∈
            (sectionHeaderPart sw sec st).ops := by
          rw [hops]
          exact List.mem_append_right _ (List.mem_cons_self _ _)
        have hle : opsLe (sectionHeaderPart sw sec st) (drawSection sw sec st) :=
          (pdfStep_foldl (fun q => question_block sw q)
            (fun q => question_block_pdfStep sw q) sec.questions
            (sectionHeaderPart sw sec st)).2.2
        exact ⟨st.page, st.curY - SECTION_GAP, opsLe_mem hle hmem⟩)
      pack.sections st6 sec hsec
    rcases hone with ⟨p, y, hmem⟩
    exact ⟨p, y, opsLe_mem hLe7 hmem⟩
  · -- every question's wrapped text
    intro sec hsec q hq
    have hone := foldl_prop (fun sec st => drawSection sw sec st)
      (fun sec st' => ∀ q ∈ sec.questions, ∃ p,
        ∀ ln ∈ q_lines sw q, ∃ y, PdfOp.text p (MARGIN_X + PAD_TOP) y ln ∈ st'.ops)
      (fun sec st => ((drawSection_pdfStep sw sec) st).2.2)
      (by
        intro sec st st' hqq hle q hq
        rcases hqq q hq with ⟨p, hall⟩
        refine ⟨p, fun ln hln => ?_⟩
        rcases hall ln hln with ⟨y, hy⟩
        exact ⟨y, opsLe_mem hle hy⟩)
      (by
        intro sec st q hq
        exact foldl_prop (fun q st => question_block sw q st)
          (fun q st' => ∃ p,
            ∀ ln ∈ q_lines sw q, ∃ y, PdfOp.text p (MARGIN_X + PAD_TOP) y ln ∈ st'.ops)
          (fun q st => ((question_block_pdfStep sw q) st).2.2)
          (by
            intro q st st' hqq hle
            rcases hqq with ⟨p, hall⟩
            refine ⟨p, fun ln hln => ?_⟩
            rcases hall ln hln with ⟨y, hy⟩
            exact ⟨y, opsLe_mem hle hy⟩)
          (by
            intro q st
            refine ⟨(ensure_space (block_h sw q + BLOCK_GAP) st).page,
              fun ln hln => ?_⟩
            rcases qbOps_qlines_mem sw q (ensure_space (block_h sw q + BLOCK_GAP) st)
              ln hln with ⟨y, hy⟩
            refine ⟨y, ?_⟩
            rw [question_block_ops]
            exact List.mem_append_right _ hy)
          sec.questions (sectionHeaderPart sw sec st) q hq)
      pack.sections st6 sec hsec
    rcases hone q hq with ⟨p, hall⟩
    refine ⟨p, fun ln hln => ?_, wrap_lines_flatten sw (pyStrip q.question)
      qTextWidth "Helvetica-Bold" 12⟩
    rcases hall ln hln with ⟨y, hy⟩
    exact ⟨y, opsLe_mem hLe7 hy⟩
  · -- a footer mark on every page, the last included
    intro p hp
    have hInvH : FooterInv (pdfHeader pack tenant url fetch) := by
      intro p' hp'
      rw [pdfHeader_page] at hp'
      omega
    have hInv7 : FooterInv st7 := by
      have := (pdf_tail_pdfStep sw pack (pdfHeader pack tenant url fetch)).1 hInvH
      rw [hst7, hst6]
      exact this
    have hpage : (pack_to_pdf_state sw pack tenant url fetch).page = st7.page := by
      rw [hsplit]; rfl
    rw [hpage] at hp
    rw [hfin, hops7]
    rcases Nat.lt_or_ge p st7.page with hlt | hge
    · exact List.mem_append_left _ (hInv7 p hlt)
    · have : p = st7.page := by omega
      subst this
      simp

/-- Witness for C5 at a concrete pack (sections and questions present). -/

theorem C5_pdf_document_contents_witness :
    PdfOp.text 0 MARGIN_X (TOP_Y - 18 * mm) "T" ∈
      pack_to_pdf swZero hkPack "" "" (Except.error "") := by
  have := (C5_pdf_document_contents swZero hkPack "" "" (Except.error "")).1
  exact this

/-! ## Claim C3 -/

/-- Claim C3 (amended): after whitespace stripping, text already ending in
`?` is returned as-is, and non-empty text whose last character is not one
of `.`, `;`, `:`, `!`, `?` gets exactly one question mark appended (and
nothing removed).  The original claim's second half — that text ending in
`.`, `;`, `:` or `!` is returned unchanged — is false (see the
counterexample): such trailing punctuation is stripped and replaced by
`?`. -/

theorem C3_question_mark_normalization (s : String) :
    (lastChar? (pyStrip s) = some '?' → ensure_question_mark s = pyStrip s) ∧
    (∀ c, lastChar? (pyStrip s) = some c → c ∉ ['.', ';', ':', '!', '?'] →
      ensure_question_mark s = pyStrip s ++ "?") := by
  constructor
  · intro h
    unfold ensure_question_mark
    simp [endsWithQ, h]
  · intro c hc hnot
    have hq : endsWithQ (pyStrip s) = false := by
      unfold endsWithQ
      rw [hc]
      simp only [decide_eq_false_iff_not]
      intro h
      exact hnot (by simp_all)
    have hp : trailingPunct c = false := by
      unfold trailingPunct
      simp only [List.mem_cons, List.mem_singleton] at hnot
      push_neg at hnot
      simp [hnot.1, hnot.2.1, hnot.2.2.1, hnot.2.2.2.1]
    unfold ensure_question_mark
    simp only [hq, Bool.false_eq_true, if_false]
    rw [subTrailingPunct_of_last (pyStrip s) c hc hp]

/-- Witness for C3: both branches at concrete inputs. -/

theorem C3_question_mark_normalization_witness :
    ensure_question_mark "Done?" = "Done?" ∧
    ensure_question_mark "Was it ok" = "Was it ok?" := by
  constructor
  · exact (C3_question_mark_normalization "Done?").1 (by decide)
  · exact (C3_question_mark_normalization "Was it ok").2 'k' (by decide) (by decide)

/-- Counterexample for C3 as stated: `"Hello."` ends in terminal
punctuation but is **not** returned unchanged — the trailing `.` is
replaced by `?`. -/

theorem C3_counterexample :
    ensure_question_mark "Hello." = "Hello?" ∧ ensure_question_mark "Hello." ≠ "Hello." := by
  constructor
  · decide
  · decide

/-! ## Claim C6 -/

theorem footer_noImage (st : PdfState) (h : NoImage st) : NoImage (footer st) := by
  intro op hop
  rw [footer_ops] at hop
  rcases List.mem_append.1 hop with hop | hop
  · exact h op hop
  · simp at hop; subst hop; rfl

theorem pack_to_pdf_ne_nil (sw : String → String → ℤ → ℤ) (pack : Pack)
    (tenant url : String) (fetch : Except String Unit) :
    pack_to_pdf sw pack tenant url fetch ≠ [] := by
  have : pack_to_pdf sw pack tenant url fetch =
      (pack.sections.foldl (fun s sec => drawSection sw sec s)
        (draw_bullets sw "Housekeeping" pack.housekeeping
          (pdfHeader pack tenant url fetch))).ops ++
        [PdfOp.footerMark (pack.sections.foldl (fun s sec => drawSection sw sec s)
          (draw_bullets sw "Housekeeping" pack.housekeeping
            (pdfHeader pack tenant url fetch))).page] := rfl
  rw [this]
  simp

theorem pdf_noImage_of_error (sw : String → String → ℤ → ℤ) (pack : Pack)
    (tenant url e : String) :
    ∀ op ∈ pack_to_pdf sw pack tenant url (Except.error e), op.isImage = false := by
  have h0 := pdfHeader_noImage_of_error pack tenant url e
  have h7 := ((pdf_tail_pdfStep sw pack) (pdfHeader pack tenant url (Except.error e))).2.1 h0
  have := footer_noImage _ h7
  intro op hop
  exact this op hop

theorem docxSection_no_picture (sec : PackSection) :
    ∀ op ∈ docxSection sec, op ≠ DocxOp.picture := by
  intro op hop
  unfold docxSection at hop
  rcases List.mem_cons.1 hop with hop | hop
  · subst hop; simp
  rcases List.mem_cons.1 hop with hop | hop
  · subst hop; simp
  rcases List.mem_append.1 hop with hop | hop
  · rcases List.mem_append.1 hop with hop | hop
    · rcases List.mem_map.1 hop with ⟨b, _, hb⟩
      subst hb; simp
    · by_cases hn : sec.notes = ""
      · rw [if_neg (by simp [hn])] at hop
        simp at hop
      · rw [if_pos (by simp [hn])] at hop
        simp at hop
        subst hop; simp
  · rcases List.mem_map.1 hop with ⟨q, _, hq⟩
    subst hq
    simp [add_question_table]

theorem docx_no_picture_of_error (pack : Pack) (tenant url e : String) :
    ∀ op ∈ pack_to_docx pack tenant url (Except.error e), op ≠ DocxOp.picture := by
  intro op hop
  unfold pack_to_docx at hop
  rcases List.mem_append.1 hop with hop | hop
  on_goal 2 => simp at hop; subst hop; simp
  rcases List.mem_append.1 hop with hop | hop
  on_goal 2 =>
    rcases List.mem_flatten.1 hop with ⟨l, hl, hop⟩
    rcases List.mem_map.1 hl with ⟨sec, _, hsec⟩
    subst hsec
    exact docxSection_no_picture sec op hop
  rcases List.mem_append.1 hop with hop | hop
  on_goal 2 =>
    by_cases hhk : pack.housekeeping = []
    · rw [if_neg (by simp [hhk])] at hop; simp at hop
    · rw [if_pos (by simp [hhk])] at hop
      rcases List.mem_cons.1 hop with hop | hop
      · subst hop; simp
      rcases List.mem_cons.1 hop with hop | hop
      · subst hop; simp
      rcases List.mem_map.1 hop with ⟨b, _, hb⟩
      subst hb; simp
  rcases List.mem_append.1 hop with hop | hop
  on_goal 2 =>
    by_cases ht : tenant = ""
    · rw [if_neg (by simp [ht])] at hop; simp at hop
    · rw [if_pos (by simp [ht])] at hop
      simp at hop; subst hop; simp
  rcases List.mem_append.1 hop with hop | hop
  · by_cases hu : url = ""
    · rw [if_neg (by simp [hu])] at hop; simp at hop
    · rw [if_pos (by simp [hu])] at hop
      simp at hop
  · rcases List.mem_cons.1 hop with hop | hop
    · subst hop; simp
    simp at hop; subst hop; simp

/-- Claim C6 (confirmed): when the remote logo fetch fails, both exporters
produce exactly the output they produce with no logo URL at all —
non-empty, with no logo image — and, being total functions of the fetch
*outcome*, propagate no exception. -/

theorem C6_logo_failure_swallowed (sw : String → String → ℤ → ℤ) (pack : Pack)
    (tenant url e : String) :
    pack_to_pdf sw pack tenant url (Except.error e) =
      pack_to_pdf sw pack tenant "" (Except.error e) ∧
    pack_to_pdf sw pack tenant url (Except.error e) ≠ [] ∧
    (∀ op ∈ pack_to_pdf sw pack tenant url (Except.error e), op.isImage = false) ∧
    pack_to_docx pack tenant url (Except.error e) =
      pack_to_docx pack tenant "" (Except.error e) ∧
    pack_to_docx pack tenant url (Except.error e) ≠ [] ∧
    (∀ op ∈ pack_to_docx pack tenant url (Except.error e), op ≠ DocxOp.picture) := by
  refine ⟨?_, pack_to_pdf_ne_nil sw pack tenant url (Except.error e),
    pdf_noImage_of_error sw pack tenant url e, ?_, ?_,
    docx_no_picture_of_error pack tenant url e⟩
  · show (pack_to_pdf_state sw pack tenant url (Except.error e)).ops =
      (pack_to_pdf_state sw pack tenant "" (Except.error e)).ops
    rw [pack_to_pdf_state_eq, pack_to_pdf_state_eq,
      pdfHeader_error_eq_no_logo pack tenant url e (Except.error e)]
  · unfold pack_to_docx
    by_cases hu : url = "" <;> simp [hu]
  · unfold pack_to_docx
    intro hnil
    rw [List.append_eq_nil] at hnil
    simp at hnil

/-- Witness for C6 at a concrete pack and failing fetch. -/

theorem C6_logo_failure_swallowed_witness :
    pack_to_pdf swZero hkPack "" "http://bad" (Except.error "boom") =
      pack_to_pdf swZero hkPack "" "" (Except.error "boom") :=
  (C6_logo_failure_swallowed swZero hkPack "" "http://bad" "boom").1

/-! ## Claim C7 -/

theorem take6_nil_iff {α : Type} (fus fus' : List α)
    (h : fus.take 6 = fus'.take 6) : fus = [] ↔ fus' = [] := by
  constructor
  · intro hn
    subst hn
    cases fus' with
    | nil => rfl
    | cons a l => simp [List.take] at h
  · intro hn
    subst hn
    cases fus with
    | nil => rfl
    | cons a l => simp [List.take] at h

theorem fup_text_congr (q : Question) (fus fus' : List String)
    (h : fus.take 6 = fus'.take 6) :
    fup_text { q with followups := fus } = fup_text { q with followups := fus' } := by
  unfold fup_text
  by_cases hn : fus = []
  · have hn' : fus' = [] := (take6_nil_iff fus fus' h).1 hn
    simp [hn, hn']
  · have hn' : fus' ≠ [] := fun hh => hn ((take6_nil_iff fus fus' h).2 hh)
    simp [hn, hn', h]

theorem question_block_congr (sw : String → String → ℤ → ℤ) (q q' : Question)
    (st : PdfState) (h1 : q.question = q'.question) (h2 : q.intent = q'.intent)
    (h3 : q.good = q'.good) (h4 : fup_text q = fup_text q') :
    question_block sw q st = question_block sw q' st := by
  unfold question_block qbOps qbRf qbRg qbRi qbRq block_h rows_h q_lines
    intent_lines good_lines fup_lines
  rw [h1, h2, h3, h4]

theorem docx_q_rows_congr (q q' : Question) (h2 : q.intent = q'.intent)
    (h3 : q.good = q'.good) (h4 : q.followups = [] ↔ q'.followups = [])
    (h5 : q.followups.take 6 = q'.followups.take 6) :
    docx_q_rows q = docx_q_rows q' := by
  unfold docx_q_rows
  rw [h2, h3, h5]
  have : (if q.followups ≠ [] then
      addRowDocx "Follow-ups" (joinComma (List.take 6 q'.followups)) else []) =
      (if q'.followups ≠ [] then
      addRowDocx "Follow-ups" (joinComma (List.take 6 q'.followups)) else []) :=
    if_congr (not_congr h4) rfl rfl
  rw [this]

/-- Claim C7 (amended): the two exporters consume only the first 6
follow-ups, in order — their output is invariant under any change of the
follow-up list beyond index 6 — but the legacy `render_docx` renderer
emits **all** of a question's follow-ups (so the original "every
renderer" claim fails; see the counterexample). -/

theorem C7_followup_cap (sw : String → String → ℤ → ℤ) :
    (∀ (st : PdfState) (q : Question) (fus fus' : List String),
      fus.take 6 = fus'.take 6 →
      question_block sw { q with followups := fus } st =
        question_block sw { q with followups := fus' } st ∧
      add_question_table { q with followups := fus } =
        add_question_table { q with followups := fus' }) ∧
    (∀ (pack : BuildPack) (role it dur : String) (lb fb : Bool),
      ∀ itq ∈ pack.questions, ∀ fu ∈ itq.follow_ups,
        DocxOp.para ("• " ++ fu) ∈ render_docx pack role it dur lb fb) := by
  constructor
  · intro st q fus fus' h
    constructor
    · exact question_block_congr sw _ _ st rfl rfl rfl (fup_text_congr q fus fus' h)
    · unfold add_question_table
      rw [docx_q_rows_congr { q with followups := fus } { q with followups := fus' }
        rfl rfl (take6_nil_iff fus fus' h) (by simpa using h)]
  · intro pack role it dur lb fb itq hitq fu hfu
    rcases List.mem_iff_getElem.1 hitq with ⟨i, hi, hget⟩
    have hmem_enum : (i, itq) ∈ pack.questions.enum := by
      rw [List.mem_iff_getElem]
      refine ⟨i, by simpa using hi, ?_⟩
      simp [List.getElem_enum, hget]
    have hblock : render_docx_q (i + 1) itq ∈
        pack.questions.enum.map (fun p => render_docx_q (p.1 + 1) p.2) :=
      List.mem_map.2 ⟨(i, itq), hmem_enum, rfl⟩
    have hbullet : DocxOp.para ("• " ++ fu) ∈ render_docx_q (i + 1) itq := by
      unfold render_docx_q
      refine List.mem_append_left _ (List.mem_append_left _ (List.mem_append_right _ ?_))
      rw [if_pos (by simp; intro hh; rw [hh] at hfu; simp at hfu)]
      exact List.mem_cons_of_mem _ (List.mem_map.2 ⟨fu, hfu, rfl⟩)
    unfold render_docx
    refine List.mem_append_left _ (List.mem_append_right _ ?_)
    exact List.mem_flatten.2 ⟨render_docx_q (i + 1) itq, hblock, hbullet⟩

/-- Witness for C7: a 7-element and a 6-element follow-up list with the
same first 6 render identically in `question_block`. -/

theorem C7_followup_cap_witness :
    question_block swZero
      { question := "Q", intent := "", good := "",
        followups := ["f1", "f2", "f3", "f4", "f5", "f6", "f7"] } stHigh =
    question_block swZero
      { question := "Q", intent := "", good := "",
        followups := ["f1", "f2", "f3", "f4", "f5", "f6"] } stHigh :=
  ((C7_followup_cap swZero).1 stHigh
    { question := "Q", intent := "", good := "", followups := [] }
    ["f1", "f2", "f3", "f4", "f5", "f6", "f7"]
    ["f1", "f2", "f3", "f4", "f5", "f6"] (by decide)).1

/-- Counterexample for C7 as stated: `render_docx` emits the 7th
follow-up — seven follow-up bullets in all, more than 6. -/

theorem C7_counterexample :
    DocxOp.para "• f7" ∈ render_docx fu7Pack "r" "t" "60" false false ∧
    (render_docx fu7Pack "r" "t" "60" false false).countP fuBullet = 7 := by
  constructor
  · decide
  · decide

/-! ## Claim C8 -/

/-- Claim C8 (amended): every question emitted into the normalized pack has
non-empty text — normalisation forces a trailing `?` — but empty upstream
items are **not** dropped: the slice keeps `min(num_questions, len)`
items whatever their text, and an empty question becomes the one-character
text `"?"` (see the counterexample). -/

theorem C8_questions_nonempty_not_dropped (args : GenArgs) (raw : RawResponse) :
    ∃ pack, build_ivq_pack args (Except.ok raw) = Except.ok pack ∧
      (∀ q ∈ pack.questions, q.question ≠ "" ∧ endsWithQ q.question = true) ∧
      pack.questions.length = min args.num_questions raw.questions.length := by
  refine ⟨_, rfl, ?_, ?_⟩
  · intro q hq
    rcases List.mem_map.1 hq with ⟨item, _, hitem⟩
    subst hitem
    have hend : endsWithQ (normalizeItem item).question = true :=
      ensure_question_mark_endsQ item.question
    exact ⟨ne_empty_of_endsQ _ hend, hend⟩
  · simp

/-- Witness for C8 at a concrete upstream response. -/

theorem C8_questions_nonempty_not_dropped_witness :
    ∃ pack, build_ivq_pack argsEx (Except.ok emptyQRaw) = Except.ok pack ∧
      (∀ q ∈ pack.questions, q.question ≠ "" ∧ endsWithQ q.question = true) ∧
      pack.questions.length = min argsEx.num_questions emptyQRaw.questions.length :=
  C8_questions_nonempty_not_dropped argsEx emptyQRaw

/-- Counterexample for C8 as stated: the empty-question item is **not**
dropped — it is included, normalized to the text `"?"`. -/

theorem C8_counterexample :
    ∃ pack, build_ivq_pack argsEx (Except.ok emptyQRaw) = Except.ok pack ∧
      pack.questions.length = 1 ∧
      pack.questions.map (fun q => q.question) = ["?"] := by
  refine ⟨_, rfl, by decide, by decide⟩

/-! ## Claim C10 -/

/-- Claim C10 (confirmed): `utils.generation_iqt` does not define
`generate_interview_pack`, so app.py's `from utils.generation_iqt import
generate_interview_pack` (line 8) raises `ImportError` and the
application's generation path cannot produce a pack; moreover the pack
`build_ivq_pack` would produce carries only the keys
`html`/`questions`/`meta`, not the `html_preview` and `slug` keys that
app.py's preview and export code reads. -/

theorem C10_missing_generator :
    pyFromImport generation_iqt_module_names "generate_interview_pack" =
      Except.error "ImportError: cannot import name generate_interview_pack" ∧
    "generate_interview_pack" ∉ generation_iqt_module_names ∧
    buildPackKeys = ["html", "questions", "meta"] ∧
    "html_preview" ∉ buildPackKeys ∧
    "slug" ∉ buildPackKeys := by
  refine ⟨rfl, by decide, rfl, by decide, by decide⟩

/-! ## Claim C2 -/

/-- Claim C2 (amended, against the spec-modelled normalizer): for every
parsed upstream response, at least one section with an accepted
Close-down name is present in the normalized pack; it is present
*exactly once* provided the upstream carries at most one such section;
and when the upstream has none, the fixed five-bullet default section is
appended.  The original "exactly once regardless of the shape of the
upstream response" fails when the upstream itself carries two Close-down
sections (see the counterexample). -/

theorem C2_close_down_synthesis (title : String) (inputs : Inputs)
    (up : UpstreamPack) (rawText : String) :
    1 ≤ countCloseDown (generate_interview_pack title inputs (some up) rawText).sections ∧
    (countCloseDown up.sections ≤ 1 →
      countCloseDown (generate_interview_pack title inputs (some up) rawText).sections = 1) ∧
    (countCloseDown up.sections = 0 →
      (generate_interview_pack title inputs (some up) rawText).sections =
        up.sections ++ [closeDownSection]) ∧
    closeDownSection.bullets.length = 5 := by
  have hsec : (generate_interview_pack title inputs (some up) rawText).sections =
      ensureCloseDown up.sections := rfl
  unfold ensureCloseDown at hsec
  by_cases hany : up.sections.any (fun s => isCloseDown s.name)
  · rw [if_pos hany] at hsec
    have hpos : 0 < countCloseDown up.sections := by
      unfold countCloseDown
      rw [List.countP_pos_iff]
      rcases List.any_eq_true.1 hany with ⟨s, hs, hp⟩
      exact ⟨s, hs, hp⟩
    refine ⟨by rw [hsec]; omega, ?_, ?_, by decide⟩
    · intro hle
      rw [hsec]
      omega
    · intro h0
      rw [h0] at hpos
      omega
  · rw [if_neg hany] at hsec
    have hzero : countCloseDown up.sections = 0 := by
      unfold countCloseDown
      rw [List.countP_eq_zero]
      intro s hs
      have hthis := List.any_eq_true.not.1 hany
      push_neg at hthis
      intro hp
      exact hthis s hs hp
    have hcount : countCloseDown (up.sections ++ [closeDownSection]) = 1 := by
      unfold countCloseDown at hzero ⊢
      rw [List.countP_append, hzero]
      decide
    exact ⟨by rw [hsec, hcount], fun _ => by rw [hsec, hcount],
      fun _ => by rw [hsec], by decide⟩

/-- Witness for C2 at a concrete upstream with no Close-down section. -/

theorem C2_close_down_synthesis_witness :
    countCloseDown (generate_interview_pack "T" inputsEx (some upEx) "").sections = 1 :=
  (C2_close_down_synthesis "T" inputsEx upEx "").2.1 (by decide)

/-- Counterexample for C2 as stated: an upstream response with two
Close-down sections normalizes to a pack with two of them, not exactly
one. -/

theorem C2_counterexample :
    countCloseDown (generate_interview_pack "T" inputsEx (some dupUp) "").sections = 2 ∧
    countCloseDown (generate_interview_pack "T" inputsEx (some dupUp) "").sections ≠ 1 := by
  constructor
  · decide
  · decide

/-! ## Claim C4 -/

/-- Claim C4 (confirmed, against the spec-modelled normalizer): when the
upstream text does not parse, the produced pack consists of exactly one
unnamed section whose content is the raw response text as a single
pseudo-bullet, there are no questions in it, and no exception reaches the
caller — the normalizer is a total function whose degraded pack still
renders (the PDF exporter produces non-empty output from it). -/

theorem C4_unparsable_fallback (sw : String → String → ℤ → ℤ) (title : String)
    (inputs : Inputs) (rawText tenant : String) :
    (generate_interview_pack title inputs none rawText).sections =
      [fallbackSection rawText] ∧
    (fallbackSection rawText).name = "" ∧
    (fallbackSection rawText).bullets = [rawText] ∧
    (fallbackSection rawText).questions = [] ∧
    pack_to_pdf sw (generate_interview_pack title inputs none rawText) tenant ""
      (Except.error "") ≠ [] :=
  ⟨rfl, rfl, rfl, rfl, pack_to_pdf_ne_nil sw _ tenant "" (Except.error "")⟩

/-- Witness for C4 at a concrete unparsable response. -/

theorem C4_unparsable_fallback_witness :
    (generate_interview_pack "T" inputsEx none "I cannot answer that").sections =
      [fallbackSection "I cannot answer that"] :=
  (C4_unparsable_fallback swZero "T" inputsEx "I cannot answer that" "").1

end IVQ
